import Mathlib

/-!
# Verification of the github-issues-sync incremental synchronization core

This file gives a shallow embedding, in Lean, of the core of the
`github-issues-sync` repository: the content fingerprinting of issues
(`SyncTracker.generateIssueHash`), the change-set computation
(`SyncTracker.getChangedIssues`, `needsUpdate`, `markIssueProcessed`,
`cleanupDeletedIssues`), the state classifier (`FileManager.categorizeIssue`,
`categorizeIssuesByState`), the sync-ledger persistence error handling
(`loadSyncData` / `saveSyncData`), the response cache (`CacheManager.get` /
`set` / `generateCacheKey`, including a faithful MD5), filename generation
(`createSlug` / `generateFilename`) and the bulk reorganization pass
(`FileManager.reorganizeFilesByState`).

JavaScript-specific conventions and how they are modelled:

* JS objects used as string-keyed maps (`syncData.issues`) are modelled as
  association lists; the keys written by the program are always
  `issue.number.toString()` and are read back with `parseInt`, so the keys are
  modelled directly as `Nat`.  JS objects have unique keys; theorems carry the
  corresponding `Nodup` hypotheses.  JS iterates integer-like keys in ascending
  numeric order; the model iterates in list order, which only affects the
  ordering inside the `deleted` partition, never its membership.
* `JSON.stringify` is modelled on a `Json` value type, including the
  replacer-array (property list) semantics used by `generateCacheKey`.
* `Date.now()` and `new Date().toISOString()` are modelled by passing the
  current time explicitly.
* `crypto.createHash('sha256')` (used only to fingerprint a canonical string)
  is modelled as an arbitrary function `h : String → String`; every claim about
  fingerprints depends only on `h` being a function of the serialized string.
  `crypto.createHash('md5')` (used by the cache key, where key inequality
  matters) is implemented concretely, bit for bit.
* Strings are Lean strings; `toLowerCase` is modelled by `Char.toLower`
  (ASCII-faithful), and the default `Array.prototype.sort` on strings by a
  sort with respect to Lean's linear order on strings.
-/

set_option autoImplicit false

namespace IssuesSync

/-! ## A model of JSON values and of `JSON.stringify` -/

/-- JSON values.  Numbers are restricted to naturals, which covers every
number this program ever serializes (issue numbers, comment ids, counts). -/
inductive Json where
  | null : Json
  | bool (b : Bool) : Json
  | num (n : Nat) : Json
  | str (s : String) : Json
  | arr (items : List Json) : Json
  | obj (fields : List (String × Json)) : Json

/-- Helper for `\uXXXX` escapes of control characters: a lowercase hex digit. -/
def hexDigit (n : Nat) : Char :=
  if n < 10 then Char.ofNat (48 + n) else Char.ofNat (87 + n)

/-- Four-digit lowercase hex rendering, as produced by `JSON.stringify` for
control characters. -/
def hex4 (n : Nat) : String :=
  String.mk [hexDigit (n / 4096 % 16), hexDigit (n / 256 % 16),
             hexDigit (n / 16 % 16), hexDigit (n % 16)]

/-- Escaping of one character inside a JSON string literal, following
ECMA-262 `QuoteJSONString`. -/
def escapeJsonChar (c : Char) : String :=
  if c = '\x08' then "\\b"
  else if c = '\t' then "\\t"
  else if c = '\n' then "\\n"
  else if c = '\x0c' then "\\f"
  else if c = '\r' then "\\r"
  else if c = '"' then "\\\""
  else if c = '\\' then "\\\\"
  else if c.toNat < 32 then "\\u" ++ hex4 c.toNat
  else String.singleton c

/-- JSON string quoting: surrounding quotes plus per-character escaping. -/
def quoteJson (s : String) : String :=
  "\"" ++ String.join (s.toList.map escapeJsonChar) ++ "\""

mutual

/-- Plain `JSON.stringify(value)` (no replacer): object fields are emitted in
insertion order. -/
def Json.stringify : Json → String
  | .null => "null"
  | .bool true => "true"
  | .bool false => "false"
  | .num n => Nat.repr n
  | .str s => quoteJson s
  | .arr items => "[" ++ stringifyItems items ++ "]"
  | .obj fields => "\x7b" ++ stringifyFields fields ++ "\x7d"

/-- Comma-joined serialization of the elements of a JSON array. -/
def stringifyItems : List Json → String
  | [] => ""
  | [x] => x.stringify
  | x :: y :: xs => x.stringify ++ "," ++ stringifyItems (y :: xs)

/-- Comma-joined serialization of the fields of a JSON object. -/
def stringifyFields : List (String × Json) → String
  | [] => ""
  | [(k, v)] => quoteJson k ++ ":" ++ v.stringify
  | (k, v) :: f :: fs => quoteJson k ++ ":" ++ v.stringify ++ "," ++ stringifyFields (f :: fs)

end

/-- Selection step of the ECMA-262 replacer-array semantics: for an object,
iterate the replacer list and keep each listed key that the object has, in
replacer-list order. -/
def selectKeys (plist : List String) (kvs : List (String × Json)) : List (String × Json) :=
  plist.filterMap (fun k => (kvs.lookup k).map (fun v => (k, v)))

mutual

/-- Filtering of a JSON value by a replacer array `plist`, as specified for
`JSON.stringify(value, plist)` in ECMA-262: at every object (but not array),
only the keys listed in `plist` are kept, in `plist` order.  `JSON.stringify`
with a replacer array is then `Json.stringify ∘ pruneByKeys plist`.  The
recursive filtering of field values is performed before key selection; this is
extensionally the ECMA order (selection first), since selection only drops
fields and `pruneFields` preserves keys and field order. -/
def pruneByKeys (plist : List String) : Json → Json
  | .arr items => .arr (pruneItems plist items)
  | .obj fields => .obj (selectKeys plist (pruneFields plist fields))
  | j => j

/-- Replacer-array filtering of the elements of a JSON array (arrays are not
filtered, only their elements are recursively processed). -/
def pruneItems (plist : List String) : List Json → List Json
  | [] => []
  | x :: xs => pruneByKeys plist x :: pruneItems plist xs

/-- Replacer-array filtering of every field value of an object, keeping keys
and order. -/
def pruneFields (plist : List String) : List (String × Json) → List (String × Json)
  | [] => []
  | (k, v) :: kvs => (k, pruneByKeys plist v) :: pruneFields plist kvs

end

/-! ## Data model: issues as delivered by the fetch collaborator -/

/-- A label attached to an issue (only its name is ever read). -/
structure Label where
  name : String
  deriving DecidableEq, Repr

/-- An assignee of an issue (only the login is ever read). -/
structure Assignee where
  login : String
  deriving DecidableEq, Repr

/-- The author reference of a comment; `user` can be absent on the wire. -/
structure UserRef where
  login : String
  deriving DecidableEq, Repr

/-- An issue comment, with the fields read by `generateIssueHash`. -/
structure Comment where
  id : Nat
  body : String
  created_at : String
  updated_at : String
  user : Option UserRef
  deriving DecidableEq, Repr

/-- An issue milestone (only the title is read by the hash). -/
structure Milestone where
  title : String
  deriving DecidableEq, Repr

/-- A downloaded image reference inside an image-processing result. -/
structure ImageRef where
  originalUrl : String
  deriving DecidableEq, Repr

/-- The result attached to an issue by the image-analysis step; both arrays
can be absent (the source guards with `?.`). -/
structure ImageProcessingResult where
  images : Option (List ImageRef)
  analyses : Option (List String)
  deriving DecidableEq, Repr

/-- An issue as consumed by the synchronization core.  `body` is `Option`
because the GitHub API delivers `null` bodies; `comments` and
`imageProcessingResult` are attached later by the CLI and can be absent. -/
structure Issue where
  number : Nat
  title : String
  body : Option String
  state : String
  updated_at : String
  labels : List Label
  assignees : List Assignee
  milestone : Option Milestone
  comments : Option (List Comment)
  imageProcessingResult : Option ImageProcessingResult
  deriving DecidableEq, Repr

/-! ## The classifier (`FileManager.categorizeIssue`, `utils.categorizeIssuesByState`) -/

/-- The four categories an issue is classified into. -/
inductive Category where
  | active : Category
  | todo : Category
  | done : Category
  | blocked : Category
  deriving DecidableEq, Fintype, Repr

/-- Directory/category name of a `Category`, as used for state directories. -/
def Category.dirName : Category → String
  | .active => "active"
  | .todo => "todo"
  | .done => "done"
  | .blocked => "blocked"

/-- Boolean substring test on character lists, modelling
`String.prototype.includes`. -/
def hasSubstr (needle : List Char) : List Char → Bool
  | [] => needle.isEmpty
  | c :: t => needle.isPrefixOf (c :: t) || hasSubstr needle t

/-- Whether `hay.toLowerCase().includes(needle)` holds, with `toLowerCase`
modelled by per-character `Char.toLower` (exactly `String.toLower`, written
as a structural list map; faithful on ASCII). -/
def lowerIncludes (hay needle : String) : Bool :=
  hasSubstr needle.toList (hay.toList.map Char.toLower)

/-- Whether some label name case-insensitively contains `"blocked"`
(`issue.labels.some(label => label.name.toLowerCase().includes('blocked'))`). -/
def hasBlockedLabel (issue : Issue) : Bool :=
  issue.labels.any (fun label => lowerIncludes label.name "blocked")

/-- Whether some label name case-insensitively contains `"in progress"` or
`"active"`. -/
def hasActiveLabel (issue : Issue) : Bool :=
  issue.labels.any (fun label =>
    lowerIncludes label.name "in progress" || lowerIncludes label.name "active")

/-- Model of `FileManager.categorizeIssue` (fileManager.js, lines 217-230):
closed state wins, then blocked labels, then in-progress/active labels, else
todo.  The `issue.labels && ...` null guard in the source is subsumed by
`labels` being a (possibly empty) list here; note `[]` is truthy in JS, so an
empty label array behaves identically. -/
def categorizeIssue (issue : Issue) : Category :=
  if issue.state = "closed" then .done
  else if hasBlockedLabel issue then .blocked
  else if hasActiveLabel issue then .active
  else .todo

/-- The four category buckets produced by `utils.categorizeIssuesByState`. -/
structure Categories where
  active : List Issue
  todo : List Issue
  done : List Issue
  blocked : List Issue

/-- Model of `utils.categorizeIssuesByState` (utils.js, lines 46-68): the
source iterates the list and pushes each issue onto the bucket selected by the
same closed/blocked/active/todo rule chain, so each bucket is the in-order
sublist of issues matching its rule first. -/
def categorizeIssuesByState (issues : List Issue) : Categories where
  active := issues.filter (fun issue => decide (¬ issue.state = "closed") &&
    !hasBlockedLabel issue && hasActiveLabel issue)
  todo := issues.filter (fun issue => decide (¬ issue.state = "closed") &&
    !hasBlockedLabel issue && !hasActiveLabel issue)
  done := issues.filter (fun issue => decide (issue.state = "closed"))
  blocked := issues.filter (fun issue => decide (¬ issue.state = "closed") &&
    hasBlockedLabel issue)

/-! ## The fingerprinter (`SyncTracker.generateIssueHash`, cli.js 533-561) -/

/-- Canonicalizing string sort, modelling the default `Array.prototype.sort`
on arrays of strings (lexicographic; faithful up to the UTF-16 versus
code-point comparison order, which agree on the Basic Multilingual Plane). -/
def sortStrings (l : List String) : List String :=
  l.insertionSort (fun a b => a ≤ b)

/-- The object built for one comment inside `relevantData`: `c.user?.login ||
'Unknown'` falls back to `"Unknown"` both when `user` is absent and when the
login is the empty string (JS truthiness). -/
def commentRelevantData (c : Comment) : Json :=
  .obj [("id", .num c.id), ("body", .str c.body),
        ("created_at", .str c.created_at), ("updated_at", .str c.updated_at),
        ("user", .str (match c.user with
          | some u => if u.login = "" then "Unknown" else u.login
          | none => "Unknown"))]

/-- The normalized summary of an image-processing result inside
`relevantData`; `null` when the issue has none.  `ipr.images?.length || 0`
is `(ipr.images.getD []).length` since `0 || 0 = 0`. -/
def imageResultRelevantData : Option ImageProcessingResult → Json
  | some ipr => .obj [("imageCount", .num (ipr.images.getD []).length),
                      ("imageUrls", .arr ((ipr.images.getD []).map (fun img => .str img.originalUrl))),
                      ("analysisCount", .num (ipr.analyses.getD []).length)]
  | none => .null

/-- The `relevantData` object serialized by `SyncTracker.generateIssueHash`:
identifier, title, body, state, timestamp, label names sorted, assignee
logins sorted, milestone title, comment summaries, image summary.  A `none`
milestone gives the JS value `undefined`, which `JSON.stringify` drops, so
the field is omitted; a `none` body is JSON `null`. -/
def issueRelevantData (issue : Issue) : Json :=
  .obj ([("number", .num issue.number),
         ("title", .str issue.title),
         ("body", match issue.body with | some b => .str b | none => .null),
         ("state", .str issue.state),
         ("updated_at", .str issue.updated_at),
         ("labels", .arr ((sortStrings (issue.labels.map (fun l => l.name))).map Json.str)),
         ("assignees", .arr ((sortStrings (issue.assignees.map (fun a => a.login))).map Json.str))]
    ++ (match issue.milestone with
        | some m => [("milestone", Json.str m.title)]
        | none => [])
    ++ [("comments", .arr ((issue.comments.getD []).map commentRelevantData)),
        ("imageProcessingResult", imageResultRelevantData issue.imageProcessingResult)])

/-- Model of `SyncTracker.generateIssueHash`: the SHA-256 digest of the
serialized canonical projection.  The digest function is an arbitrary
`h : String → String`, since every verified property depends only on the hash
being a deterministic function of the serialized string. -/
def generateIssueHash (h : String → String) (issue : Issue) : String :=
  h (issueRelevantData issue).stringify

/-! ## The ledger (`SyncTracker`, cli.js 499-691) -/

/-- One ledger entry, as written by `markIssueProcessed`:
`{hash, filePath, lastProcessed, state}`. -/
structure StoredIssueData where
  hash : String
  filePath : String
  lastProcessed : String
  state : String
  deriving DecidableEq, Repr

/-- The persisted sync ledger `{lastSync, issues, deletedIssues, version}`.
The `issues` object is keyed by `issue.number.toString()`; since every key is
written and read back through `toString`/`parseInt`, keys are modelled as the
numbers themselves.  JS objects never hold duplicate keys; theorems assume
`Nodup` on the key list accordingly. -/
structure SyncData where
  lastSync : Option String
  issues : List (Nat × StoredIssueData)
  deletedIssues : List String
  version : String
  deriving DecidableEq, Repr

/-- The fresh ledger returned by `loadSyncData` when nothing (usable) is
persisted. -/
def defaultSyncData : SyncData :=
  { lastSync := none, issues := [], deletedIssues := [], version := "1.0" }

/-- Model of `SyncTracker.loadSyncData` (cli.js 506-522): a missing file
yields the default ledger; a read or parse failure is caught, logged as a
warning, and also yields the default ledger.  The possibly-failing read of
the storage location is passed in explicitly. -/
def loadSyncData (readResult : Except String (Option SyncData)) : SyncData :=
  match readResult with
  | .ok (some d) => d
  | .ok none => defaultSyncData
  | .error _ => defaultSyncData

/-- Model of `SyncTracker.saveSyncData` (cli.js 524-531): the write is
attempted and any failure is caught and logged as a warning; the method never
rethrows.  The possibly-failing write is passed in explicitly and the value
returned is what the caller observes. -/
def saveSyncData (writeResult : Except String Unit) : Except String Unit :=
  match writeResult with
  | .ok _ => .ok ()
  | .error _ => .ok ()

/-- The verdict of `SyncTracker.needsUpdate`. -/
inductive UpdateReason where
  | new : UpdateReason
  | updated : UpdateReason
  | unchanged : UpdateReason
  deriving DecidableEq, Repr

/-- Model of `SyncTracker.needsUpdate` (cli.js 563-577): no ledger entry means
`new`; a fingerprint mismatch means `updated`; otherwise `unchanged`. -/
def needsUpdate (h : String → String) (d : SyncData) (issue : Issue) : UpdateReason :=
  match d.issues.lookup issue.number with
  | none => .new
  | some stored =>
    if stored.hash ≠ generateIssueHash h issue then .updated else .unchanged

/-- Upsertion into a JS object modelled as an association list: overwrite in
place if the key exists, append otherwise. -/
def setKey {κ α : Type} [DecidableEq κ] (k : κ) (v : α) : List (κ × α) → List (κ × α)
  | [] => [(k, v)]
  | (k', v') :: t => if k' = k then (k, v) :: t else (k', v') :: setKey k v t

/-- Model of `SyncTracker.markIssueProcessed` (cli.js 579-589): upsert the
entry for the issue's number with the current fingerprint, the artifact path,
the current timestamp, and the issue's (raw) `state` field. -/
def markIssueProcessed (h : String → String) (now : String) (issue : Issue)
    (filePath : String) (d : SyncData) : SyncData :=
  let entry : StoredIssueData :=
    { hash := generateIssueHash h issue, filePath := filePath,
      lastProcessed := now, state := issue.state }
  { d with issues := setKey issue.number entry d.issues }

/-- One record of the `deleted` partition: the parsed key, the recorded
artifact path and the recorded state. -/
structure DeletedIssue where
  number : Nat
  filePath : String
  lastState : String
  deriving DecidableEq, Repr

/-- The change partition produced by `SyncTracker.getChangedIssues`. -/
structure ChangeSet where
  new : List Issue
  updated : List Issue
  unchanged : List Issue
  deleted : List DeletedIssue

/-- Model of `SyncTracker.getChangedIssues` (cli.js 591-626).  The source
loops over the fetched issues pushing each one onto the bucket chosen by
`needsUpdate`, so each bucket is the in-order sublist with that verdict; it
then loops over the ledger entries and pushes a deleted record for every key
not among the fetched issue numbers.  (JS iterates the integer-like keys in
ascending order; here the ledger's list order is used, which only permutes
the `deleted` list.) -/
def getChangedIssues (h : String → String) (d : SyncData) (issues : List Issue) : ChangeSet where
  new := issues.filter (fun i => needsUpdate h d i = .new)
  updated := issues.filter (fun i => needsUpdate h d i = .updated)
  unchanged := issues.filter (fun i => needsUpdate h d i = .unchanged)
  deleted := (d.issues.filter
      (fun kv => !(issues.map (fun i => i.number)).contains kv.1)).map
    (fun kv => { number := kv.1, filePath := kv.2.filePath, lastState := kv.2.state })

/-- Ledger effect of `SyncTracker.cleanupDeletedIssues` (cli.js 628-646): for
each deleted record the artifact file is unlinked if present and the ledger
entry for its number is removed (`delete this.syncData.issues[...]`).  The
filesystem part is not modelled; on the happy path the entry removal is
unconditional. -/
def cleanupDeletedIssues (deleted : List DeletedIssue) (d : SyncData) : SyncData :=
  deleted.foldl
    (fun acc del =>
      { acc with issues := acc.issues.filter (fun kv => decide (kv.1 ≠ del.number)) })
    d

/-! ## The response cache (`CacheManager`, cache.js as reproduced in
docs/github_issues_sync_spec.md, lines 255-407) -/

/-- One persisted cache entry `{data, timestamp, ttl, expires}`.  The payload
type is a parameter (the source stores arbitrary JSON-serializable data). -/
structure CacheEntry (α : Type) where
  data : α
  timestamp : Nat
  ttl : Nat
  expires : Nat
  deriving DecidableEq, Repr

/-- The cache directory: one entry per key (one `<key>.json` file each),
modelled as an association list with unique keys. -/
abbrev CacheStore (α : Type) := List (String × CacheEntry α)

/-- Model of `CacheManager.delete`: remove the entry file for the key if
present. -/
def cacheDelete {α : Type} (key : String) (store : CacheStore α) : CacheStore α :=
  store.filter (fun kv => decide (kv.1 ≠ key))

/-- Model of `CacheManager.enforceMaxCacheSize`: if the directory holds more
than `maxCacheSize` entries, keep the `maxCacheSize` most recently written
ones (file modification time equals the entry's `timestamp`, since `set`
rewrites the whole file) and delete the rest. -/
def enforceMaxCacheSize {α : Type} (maxCacheSize : Nat) (store : CacheStore α) : CacheStore α :=
  if store.length > maxCacheSize then
    (store.insertionSort (fun e1 e2 => e2.2.timestamp ≤ e1.2.timestamp)).take maxCacheSize
  else store

/-- Model of `CacheManager.set` at time `now`: always overwrite the entry
with `{data, timestamp: now, ttl, expires: now + ttl}`, then enforce the size
cap. -/
def cacheSet {α : Type} (maxCacheSize : Nat) (now : Nat) (key : String) (data : α)
    (ttl : Nat) (store : CacheStore α) : CacheStore α :=
  enforceMaxCacheSize maxCacheSize
    (setKey key { data := data, timestamp := now, ttl := ttl, expires := now + ttl } store)

/-- Model of `CacheManager.get` at time `now`: a missing entry is a miss; an
entry with `Date.now() > expires` is deleted and reported as a miss;
otherwise the payload is returned.  (A corrupt entry file is also treated as
a miss in the source; the model's store only holds parseable entries.)  The
returned pair is the result together with the store after any eviction. -/
def cacheGet {α : Type} (now : Nat) (key : String) (store : CacheStore α) :
    Option α × CacheStore α :=
  match store.lookup key with
  | none => (none, store)
  | some e =>
    if now > e.expires then (none, cacheDelete key store) else (some e.data, store)

/-! ## MD5 and the cache key (`CacheManager.generateCacheKey`)

The cache key is `` `${prefix}_${md5hex(JSON.stringify(params, Object.keys(params).sort()))}` ``.
Unlike the content fingerprint, cache-key *inequality* matters for the claims
below, so MD5 (RFC 1321) is implemented concretely on naturals reduced
modulo `2^32`. -/

/-- The UTF-8 encoding of one character, as `crypto.Hash.update` applies to a
JS string. -/
def utf8EncodeChar (c : Char) : List Nat :=
  let n := c.toNat
  if n < 128 then [n]
  else if n < 2048 then [192 + n / 64, 128 + n % 64]
  else if n < 65536 then [224 + n / 4096, 128 + (n / 64) % 64, 128 + n % 64]
  else [240 + n / 262144, 128 + (n / 4096) % 64, 128 + (n / 64) % 64, 128 + n % 64]

/-- The UTF-8 bytes of a string. -/
def strToBytes (s : String) : List Nat :=
  (s.toList.map utf8EncodeChar).flatten

/-- Addition modulo `2^32`. -/
def add32 (a b : Nat) : Nat := (a + b) % 4294967296

/-- Left rotation of a 32-bit word. -/
def rotl32 (x n : Nat) : Nat :=
  ((x * 2 ^ n) % 4294967296) + (x % 4294967296) / 2 ^ (32 - n)

/-- The 64 MD5 sine-derived round constants (RFC 1321). -/
def md5K : List Nat :=
  [0xd76aa478, 0xe8c7b756, 0x242070db, 0xc1bdceee,
   0xf57c0faf, 0x4787c62a, 0xa8304613, 0xfd469501,
   0x698098d8, 0x8b44f7af, 0xffff5bb1, 0x895cd7be,
   0x6b901122, 0xfd987193, 0xa679438e, 0x49b40821,
   0xf61e2562, 0xc040b340, 0x265e5a51, 0xe9b6c7aa,
   0xd62f105d, 0x02441453, 0xd8a1e681, 0xe7d3fbc8,
   0x21e1cde6, 0xc33707d6, 0xf4d50d87, 0x455a14ed,
   0xa9e3e905, 0xfcefa3f8, 0x676f02d9, 0x8d2a4c8a,
   0xfffa3942, 0x8771f681, 0x6d9d6122, 0xfde5380c,
   0xa4beea44, 0x4bdecfa9, 0xf6bb4b60, 0xbebfbc70,
   0x289b7ec6, 0xeaa127fa, 0xd4ef3085, 0x04881d05,
   0xd9d4d039, 0xe6db99e5, 0x1fa27cf8, 0xc4ac5665,
   0xf4292244, 0x432aff97, 0xab9423a7, 0xfc93a039,
   0x655b59c3, 0x8f0ccc92, 0xffeff47d, 0x85845dd1,
   0x6fa87e4f, 0xfe2ce6e0, 0xa3014314, 0x4e0811a1,
   0xf7537e82, 0xbd3af235, 0x2ad7d2bb, 0xeb86d391]

/-- The 64 MD5 per-round left-rotation amounts (RFC 1321). -/
def md5S : List Nat :=
  [7, 12, 17, 22, 7, 12, 17, 22, 7, 12, 17, 22, 7, 12, 17, 22,
   5, 9, 14, 20, 5, 9, 14, 20, 5, 9, 14, 20, 5, 9, 14, 20,
   4, 11, 16, 23, 4, 11, 16, 23, 4, 11, 16, 23, 4, 11, 16, 23,
   6, 10, 15, 21, 6, 10, 15, 21, 6, 10, 15, 21, 6, 10, 15, 21]

/-- MD5 message padding: a `0x80` byte, zeros to 56 mod 64, then the bit
length as 8 little-endian bytes. -/
def md5Pad (msg : List Nat) : List Nat :=
  let bitLen := msg.length * 8
  let withOne := msg ++ [128]
  let zeros := (56 + 64 - withOne.length % 64) % 64
  withOne ++ List.replicate zeros 0 ++
    ((List.range 8).map (fun i => bitLen / 2 ^ (8 * i) % 256))

/-- Little-endian 32-bit word `i` of a 64-byte chunk. -/
def leWord (chunk : List Nat) (i : Nat) : Nat :=
  chunk.getD (4 * i) 0 + 256 * chunk.getD (4 * i + 1) 0 +
    65536 * chunk.getD (4 * i + 2) 0 + 16777216 * chunk.getD (4 * i + 3) 0

/-- One MD5 round on state `(a, b, c, d)` with message words `m`. -/
def md5Round (m : List Nat) (st : Nat × Nat × Nat × Nat) (i : Nat) : Nat × Nat × Nat × Nat :=
  let (a, b, c, d) := st
  let fg : Nat × Nat :=
    if i < 16 then ((b &&& c) ||| ((4294967295 ^^^ b) &&& d), i)
    else if i < 32 then ((d &&& b) ||| ((4294967295 ^^^ d) &&& c), (5 * i + 1) % 16)
    else if i < 48 then (b ^^^ c ^^^ d, (3 * i + 5) % 16)
    else (c ^^^ (b ||| (4294967295 ^^^ d)), (7 * i) % 16)
  let sum := add32 (add32 (add32 a fg.1) (md5K.getD i 0)) (m.getD fg.2 0)
  (d, add32 b (rotl32 sum (md5S.getD i 0)), b, c)

/-- Processing of one 64-byte chunk: 64 rounds, then addition into the
incoming state. -/
def md5Chunk (st : Nat × Nat × Nat × Nat) (chunk : List Nat) : Nat × Nat × Nat × Nat :=
  let m := (List.range 16).map (leWord chunk)
  let r := (List.range 64).foldl (md5Round m) st
  (add32 st.1 r.1, add32 st.2.1 r.2.1, add32 st.2.2.1 r.2.2.1, add32 st.2.2.2 r.2.2.2)

/-- Splitting a byte list into 64-byte chunks, structurally recursive on a
length fuel (the fuel never runs out, since each step consumes at least one
byte) so that digests evaluate by kernel reduction. -/
def chunksGo : Nat → List Nat → List (List Nat)
  | _, [] => []
  | 0, _ :: _ => []
  | fuel + 1, x :: xs => (x :: xs).take 64 :: chunksGo fuel ((x :: xs).drop 64)

/-- Splitting a byte list into 64-byte chunks. -/
def chunks64 (l : List Nat) : List (List Nat) := chunksGo l.length l

/-- Little-endian byte decomposition of a 32-bit word. -/
def leBytes (w : Nat) : List Nat :=
  [w % 256, w / 256 % 256, w / 65536 % 256, w / 16777216 % 256]

/-- The 16 MD5 digest bytes of a byte message. -/
def md5Bytes (msg : List Nat) : List Nat :=
  let st := (chunks64 (md5Pad msg)).foldl md5Chunk
    (0x67452301, 0xefcdab89, 0x98badcfe, 0x10325476)
  leBytes st.1 ++ leBytes st.2.1 ++ leBytes st.2.2.1 ++ leBytes st.2.2.2

/-- Lowercase hex rendering of one byte. -/
def byteToHex (b : Nat) : String :=
  String.mk [hexDigit (b / 16 % 16), hexDigit (b % 16)]

/-- The lowercase hex MD5 digest of a string, as
`crypto.createHash('md5').update(s).digest('hex')`. -/
def md5Hex (s : String) : String :=
  String.join ((md5Bytes (strToBytes s)).map byteToHex)

/-- Model of `CacheManager.generateCacheKey(prefix, params)`:
`JSON.stringify(params, Object.keys(params).sort())` followed by an MD5
digest, prefixed.  The replacer array is the sorted list of the top-level
keys of `params` (always an object at the call sites). -/
def generateCacheKey (pre : String) (params : Json) : String :=
  let plist := match params with
    | .obj kvs => sortStrings (kvs.map (fun kv => kv.1))
    | _ => []
  pre ++ "_" ++ md5Hex (Json.stringify (pruneByKeys plist params))

/-! ## Filename generation (`utils.createSlug`, `utils.generateFilename`) -/

/-- Membership in the JS regular-expression class `\s` (whitespace). -/
def isJsSpace (c : Char) : Bool :=
  c = ' ' || c = '\t' || c = '\n' || c = '\x0b' || c = '\x0c' || c = '\r' ||
  c = ' ' || c = ' ' || (' ' ≤ c && c ≤ ' ') ||
  c = ' ' || c = ' ' || c = ' ' || c = ' ' ||
  c = '　' || c = '﻿'

/-- Characters kept by `.replace(/[^a-z0-9\s-]/g, '')`. -/
def isSlugKeepChar (c : Char) : Bool :=
  ('a' ≤ c && c ≤ 'z') || ('0' ≤ c && c ≤ '9') || isJsSpace c || c = '-'

/-- Global replacement of every maximal run of `p`-characters by the single
character `rep`, modelling `.replace(/X+/g, rep)`. -/
def replaceRuns (p : Char → Bool) (rep : Char) : List Char → List Char
  | [] => []
  | c :: t =>
    if p c then rep :: replaceRuns p rep (t.dropWhile p)
    else c :: replaceRuns p rep t
termination_by l => l.length
decreasing_by
  · simp only [List.length_cons]
    have h := List.IsSuffix.length_le (List.dropWhile_suffix (l := t) (p := p))
    omega
  · simp

/-- Removal of one leading and one trailing dash, modelling
`.replace(/^-|-$/g, '')`. -/
def stripEdgeDashes (l : List Char) : List Char :=
  let l1 := if l.head? = some '-' then l.tail else l
  if l1.getLast? = some '-' then l1.dropLast else l1

/-- Model of `utils.createSlug` (utils.js, lines 4-18): an absent or empty
title gives `"issue"`; otherwise lower-case, delete characters outside
`[a-z0-9\s-]`, turn whitespace runs into dashes, collapse dash runs, trim
edge dashes, and fall back to `"issue"` when nothing is left. -/
def createSlug (title : String) : String :=
  if title = "" then "issue"
  else
    let slug := stripEdgeDashes (replaceRuns (fun c => c = '-') '-'
      (replaceRuns isJsSpace '-' ((title.toList.map Char.toLower).filter isSlugKeepChar)))
    if slug = [] then "issue" else String.mk slug

/-- Decimal digit character. -/
def digitChar (n : Nat) : Char := Char.ofNat (48 + n)

/-- Decimal rendering of a natural number, modelling the JS number-to-string
conversion performed by the template literal in `generateFilename`. -/
def natToChars (n : Nat) : List Char :=
  if n < 10 then [digitChar n]
  else natToChars (n / 10) ++ [digitChar (n % 10)]
termination_by n
decreasing_by
  exact Nat.div_lt_self (by omega) (by omega)

/-- Model of `utils.generateFilename` (utils.js, lines 26-33):
`"<number>-<slug>.md"`, with slug fallback `'untitled'` for an empty title;
a missing or zero issue number (`!issue.number`, JS falsiness) yields
`"unknown-issue.md"`. -/
def generateFilename (issue : Issue) : String :=
  if issue.number = 0 then "unknown-issue.md"
  else
    String.mk (natToChars issue.number) ++ "-" ++
      createSlug (if issue.title = "" then "untitled" else issue.title) ++ ".md"

/-- Decimal digit test (`\d`). -/
def isDigitChar (c : Char) : Bool := '0' ≤ c && c ≤ '9'

/-- Numeric value of a list of decimal digit characters, as computed by
`parseInt` on the captured group. -/
def digitsToNat (digits : List Char) : Nat :=
  digits.foldl (fun acc c => acc * 10 + (c.toNat - 48)) 0

/-- Model of the filename match against the pattern `^(\d+)-` followed by
`parseInt` on the capture: the pattern matches exactly when the maximal leading digit run is
non-empty and followed by `'-'` (shorter runs leave a digit, not `'-'`, as
the next character, so backtracking cannot succeed otherwise). -/
def extractIssueNumber (filename : String) : Option Nat :=
  let digits := filename.toList.takeWhile isDigitChar
  if digits = [] then none
  else
    match filename.toList.dropWhile isDigitChar with
    | '-' :: _ => some (digitsToNat digits)
    | _ => none

/-! ## The bulk reorganization pass (`FileManager.reorganizeFilesByState`,
docs/github_issues_sync_spec.md, lines 1561-1637) -/

/-- The filesystem slice touched by reorganization: for each of the four
category directories under the output directory, either `none` (the
directory does not exist) or the list of file names it holds.  Real
directories never hold duplicate names; theorems assume `Nodup` listings. -/
abbrev CatFS := Category → Option (List String)

/-- The issue map built at the start of the pass
(`issues.forEach(issue => issueMap.set(issue.number, issue))`); a later
issue with the same number overwrites an earlier one. -/
def buildIssueMap (issues : List Issue) : List (Nat × Issue) :=
  issues.foldl (fun m i => setKey i.number i m) []

/-- Structural model of `String.prototype.endsWith` (and of Lean's
`String.endsWith`) on the underlying character lists. -/
def endsWithStr (suf s : String) : Bool :=
  suf.toList.isSuffixOf s.toList

/-- The decision taken for one scanned file: `some target` when the file
parses to a known issue whose category differs from the directory it is in
(a move, counted in both modes), `none` otherwise (unparseable name, unknown
issue, or already in place — all skipped). -/
def moveDecision (imap : List (Nat × Issue)) (c : Category) (filename : String) :
    Option Category :=
  match extractIssueNumber filename with
  | none => none
  | some n =>
    match imap.lookup n with
    | none => none
    | some issue =>
      let expectedState := categorizeIssue issue
      if c ≠ expectedState then some expectedState else none

/-- Appending a file name to a directory listing; `fs.renameSync` overwrites
an existing target file of the same name, so the name appears once. -/
def fsInsert (f : String) (l : List String) : List String :=
  if l.contains f then l else l ++ [f]

/-- Effect of `ensureDirectoryExists(targetDir)` followed by
`fs.renameSync(currentPath, targetPath)`: the name leaves the source
directory and appears in the target directory (created if absent). -/
def moveFile (f : String) (src tgt : Category) (fs : CatFS) : CatFS := fun d =>
  if d = src then (fs src).map (fun l => l.erase f)
  else if d = tgt then some (fsInsert f ((fs tgt).getD []))
  else fs d

/-- Effect of `cleanupEmptyDirectory` on a category directory: remove it when
it exists and is empty (the emptiness test sees all files, not only `.md`
ones). -/
def cleanupEmptyDirectory (c : Category) (fs : CatFS) : CatFS :=
  match fs c with
  | some [] => fun d => if d = c then none else fs d
  | _ => fs

/-- Processing of one scanned file inside one state directory: apply the move
decision, performing the move only when not in dry-run mode but counting it
in both modes. -/
def reorgStep (imap : List (Nat × Issue)) (dryRun : Bool) (c : Category)
    (acc : Nat × CatFS) (f : String) : Nat × CatFS :=
  match moveDecision imap c f with
  | none => acc
  | some tgt => (acc.1 + 1, if dryRun then acc.2 else moveFile f c tgt acc.2)

/-- Processing of one state directory: skip it if it does not exist,
otherwise snapshot its `.md` files, process each, and (only when not in
dry-run mode) prune the directory if it ended up empty. -/
def reorgDir (imap : List (Nat × Issue)) (dryRun : Bool) (acc : Nat × CatFS)
    (c : Category) : Nat × CatFS :=
  match acc.2 c with
  | none => acc
  | some listing =>
    let files := listing.filter (fun f => endsWithStr ".md" f)
    let res := files.foldl (reorgStep imap dryRun c) acc
    if dryRun then res else (res.1, cleanupEmptyDirectory c res.2)

/-- The scan order of `reorganizeFilesByState`. -/
def stateDirectories : List Category := [.active, .todo, .done, .blocked]

/-- Model of `FileManager.reorganizeFilesByState`: when `group_by_state` is
disabled the pass is skipped with count `0`; otherwise each state directory
is scanned in order and every `.md` file whose encoded issue exists and whose
current directory differs from its expected category is moved (or, in
dry-run mode, merely counted).  Returns the move count and the resulting
filesystem. -/
def reorganizeFilesByState (groupByState : Bool) (issues : List Issue)
    (dryRun : Bool) (fs : CatFS) : Nat × CatFS :=
  if groupByState = false then (0, fs)
  else stateDirectories.foldl (reorgDir (buildIssueMap issues) dryRun) (0, fs)

/-! ## Identifier projections and proof helpers -/

/-- The identifiers of a list of fetched issues. -/
def issueNumbers (l : List Issue) : List Nat := l.map (fun i => i.number)

/-- The identifiers of a list of deleted-partition records. -/
def deletedNumbers (l : List DeletedIssue) : List Nat := l.map (fun d => d.number)

/-- The identifiers present in the ledger. -/
def ledgerKeys (d : SyncData) : List Nat := d.issues.map (fun kv => kv.1)

/-- The listing of a category directory, empty when the directory does not
exist. -/
def listingOrNil (fs : CatFS) (c : Category) : List String :=
  match fs c with
  | some l => l
  | none => []

/-- The category a scanned file name resolves to: the parsed leading issue
number looked up in the issue map, classified.  `moveDecision imap c f` is
`some e` exactly when `expectedCat imap f = some e` with `e ≠ c`. -/
def expectedCat (imap : List (Nat × Issue)) (filename : String) : Option Category :=
  match extractIssueNumber filename with
  | none => none
  | some n =>
    match imap.lookup n with
    | none => none
    | some issue => some (categorizeIssue issue)

/-- The number of moves one directory scan reports: the `.md` files of the
listing whose move decision is positive. -/
def dirCount (imap : List (Nat × Issue)) (c : Category) (l : List String) : Nat :=
  (l.filter (fun f => endsWithStr ".md" f && (moveDecision imap c f).isSome)).length

/-- The total move count a scan of the given directories would report against
a fixed filesystem. -/
def sumCounts (imap : List (Nat × Issue)) (fs : CatFS) : List Category → Nat
  | [] => 0
  | c :: t => dirCount imap c (listingOrNil fs c) + sumCounts imap fs t

/-! ## Concrete sample inputs used by witnesses and counterexamples -/

/-- A minimal issue with the given number, title, state and labels; all
optional payloads absent. -/
def mkIssue (n : Nat) (title state : String) (labels : List Label) : Issue :=
  { number := n, title := title, body := none, state := state,
    updated_at := "2024-01-01T00:00:00Z", labels := labels, assignees := [],
    milestone := none, comments := none, imageProcessingResult := none }

/-- A minimal ledger entry with the given hash, path and state. -/
def mkStored (hash filePath state : String) : StoredIssueData :=
  { hash := hash, filePath := filePath, lastProcessed := "2024-01-01T00:00:00Z",
    state := state }

/-- A ledger holding the given entries. -/
def mkSyncData (entries : List (Nat × StoredIssueData)) : SyncData :=
  { lastSync := none, issues := entries, deletedIssues := [], version := "1.0" }

/-- The identity digest stand-in used to evaluate hash-parametric functions
on concrete inputs (every verified property holds for every digest
function). -/
def idHash : String → String := fun s => s

/-- Sample fetched list: issue 1 (open, no labels) and issue 2 (closed). -/
def sampleIssues : List Issue :=
  [mkIssue 1 "First issue" "open" [], mkIssue 2 "Second issue" "closed" []]

/-- Sample ledger: an entry for issue 2 (stale hash) and a stale entry for
issue 3, which is absent from `sampleIssues`. -/
def sampleLedger : SyncData :=
  mkSyncData [(2, mkStored "stale-hash" "done/2-second-issue.md" "open"),
              (3, mkStored "h3" "todo/3-third-issue.md" "open")]

/-- Sample open issue carrying a `blocked` label. -/
def blockedOpenIssue : Issue := mkIssue 5 "Stuck work" "open" [⟨"Blocked"⟩]

/-- Sample filesystem for the reorganization pass: one misplaced artifact of
the closed issue 1 under `active/`, an unrelated note file, and an existing
empty `done/` directory. -/
def sampleFS : CatFS := fun c =>
  match c with
  | .active => some ["1-first-issue.md", "notes.txt"]
  | .todo => none
  | .done => some []
  | .blocked => none

/-! ## Shared lemmas -/

/-- The canonicalizing sort is invariant under permutation of its input. -/
theorem sortStrings_perm_eq {l1 l2 : List String} (hp : l1.Perm l2) :
    sortStrings l1 = sortStrings l2 := by
  apply List.eq_of_perm_of_sorted (r := fun a b : String => a ≤ b)
  · exact (List.perm_insertionSort _ l1).trans (hp.trans (List.perm_insertionSort _ l2).symm)
  · exact List.sorted_insertionSort _ l1
  · exact List.sorted_insertionSort _ l2

/-- Upserting then looking up the same key yields the new value. -/
theorem lookup_setKey_self {κ α : Type} [DecidableEq κ] [BEq κ] [LawfulBEq κ]
    (k : κ) (v : α) (l : List (κ × α)) : (setKey k v l).lookup k = some v := by
  induction l with
  | nil => simp [setKey, List.lookup]
  | cons p t ih =>
    cases p with
    | mk pk pv =>
      by_cases hk : pk = k
      · subst hk
        simp [setKey, List.lookup]
      · have hbeq : (k == pk) = false := by
          simp only [beq_eq_false_iff_ne, ne_eq]
          exact fun hkk => hk hkk.symm
        simp [setKey, hk, List.lookup, hbeq, ih]

/-- Upserting leaves every other key's lookup unchanged. -/
theorem lookup_setKey_ne {κ α : Type} [DecidableEq κ] [BEq κ] [LawfulBEq κ]
    {k k' : κ} (v : α) (l : List (κ × α)) (h : k' ≠ k) :
    (setKey k v l).lookup k' = l.lookup k' := by
  have hbeq : (k' == k) = false := by simpa using h
  induction l with
  | nil => simp [setKey, List.lookup, hbeq]
  | cons p t ih =>
    cases p with
    | mk pk pv =>
      by_cases hk : pk = k
      · subst hk
        simp [setKey, List.lookup, hbeq]
      · simp [setKey, hk, List.lookup, ih]

/-! ## C3: classifier rules -/

/-- C3: the classifier is a deterministic total function into
`{active, todo, done, blocked}`, applying rules in a fixed order with the
first match winning: a closed state gives `done` (so a closed issue with a
`"blocked"` label is `done`); otherwise a label name case-insensitively
containing `"blocked"` gives `blocked`; otherwise a label name containing
`"in progress"` or `"active"` gives `active`; otherwise `todo`.  The bulk
classifier `categorizeIssuesByState` buckets by exactly the same function. -/
theorem categorizeIssue_rules_spec (issue : Issue) (issues : List Issue) :
    (categorizeIssue issue = Category.done ↔ issue.state = "closed") ∧
    (categorizeIssue issue = Category.blocked ↔
      issue.state ≠ "closed" ∧ hasBlockedLabel issue = true) ∧
    (categorizeIssue issue = Category.active ↔
      issue.state ≠ "closed" ∧ hasBlockedLabel issue = false ∧
        hasActiveLabel issue = true) ∧
    (categorizeIssue issue = Category.todo ↔
      issue.state ≠ "closed" ∧ hasBlockedLabel issue = false ∧
        hasActiveLabel issue = false) ∧
    (categorizeIssuesByState issues).done =
      issues.filter (fun i => categorizeIssue i = Category.done) ∧
    (categorizeIssuesByState issues).blocked =
      issues.filter (fun i => categorizeIssue i = Category.blocked) ∧
    (categorizeIssuesByState issues).active =
      issues.filter (fun i => categorizeIssue i = Category.active) ∧
    (categorizeIssuesByState issues).todo =
      issues.filter (fun i => categorizeIssue i = Category.todo) := by
  have hchar : ∀ i : Issue,
      (categorizeIssue i = Category.done ↔ i.state = "closed") ∧
      (categorizeIssue i = Category.blocked ↔
        i.state ≠ "closed" ∧ hasBlockedLabel i = true) ∧
      (categorizeIssue i = Category.active ↔
        i.state ≠ "closed" ∧ hasBlockedLabel i = false ∧ hasActiveLabel i = true) ∧
      (categorizeIssue i = Category.todo ↔
        i.state ≠ "closed" ∧ hasBlockedLabel i = false ∧ hasActiveLabel i = false) := by
    intro i
    by_cases h1 : i.state = "closed" <;>
      by_cases h2 : hasBlockedLabel i <;>
      by_cases h3 : hasActiveLabel i <;>
      simp [categorizeIssue, h1, h2, h3]
  obtain ⟨c1, c2, c3, c4⟩ := hchar issue
  refine ⟨c1, c2, c3, c4, ?_, ?_, ?_, ?_⟩ <;>
    · apply List.filter_congr
      intro i _
      obtain ⟨d1, d2, d3, d4⟩ := hchar i
      by_cases h1 : i.state = "closed" <;>
        by_cases h2 : hasBlockedLabel i <;>
        by_cases h3 : hasActiveLabel i <;>
        simp_all [categorizeIssuesByState, categorizeIssue]

/-! ## C4: fingerprint invariance under label/assignee reordering -/

/-- C4: the fingerprint is invariant under any permutation of the `labels`
array and any permutation of the `assignees` array: the canonical projection
sorts label names and assignee logins before serializing, so two issues equal
up to those reorderings serialize, and therefore hash, identically — for
every digest function. -/
theorem generateIssueHash_perm_invariant (h : String → String) (issue : Issue)
    (labels' : List Label) (assignees' : List Assignee)
    (hl : labels'.Perm issue.labels) (ha : assignees'.Perm issue.assignees) :
    generateIssueHash h { issue with labels := labels', assignees := assignees' } =
      generateIssueHash h issue := by
  have h1 : sortStrings (labels'.map (fun l => l.name)) =
      sortStrings (issue.labels.map (fun l => l.name)) :=
    sortStrings_perm_eq (hl.map _)
  have h2 : sortStrings (assignees'.map (fun a => a.login)) =
      sortStrings (issue.assignees.map (fun a => a.login)) :=
    sortStrings_perm_eq (ha.map _)
  unfold generateIssueHash issueRelevantData
  simp [h1, h2]

/-- Witness for C4: a concrete issue with two labels and two assignees in
swapped orders hashes identically. -/
theorem generateIssueHash_perm_invariant_witness :
    generateIssueHash idHash
        { mkIssue 9 "Witness" "open" [⟨"bug"⟩, ⟨"ui"⟩] with
            labels := [⟨"ui"⟩, ⟨"bug"⟩],
            assignees := [⟨"bob"⟩, ⟨"alice"⟩] } =
      generateIssueHash idHash
        { mkIssue 9 "Witness" "open" [⟨"bug"⟩, ⟨"ui"⟩] with
            assignees := [⟨"alice"⟩, ⟨"bob"⟩] } :=
  generateIssueHash_perm_invariant idHash
    { mkIssue 9 "Witness" "open" [⟨"bug"⟩, ⟨"ui"⟩] with
        assignees := [⟨"alice"⟩, ⟨"bob"⟩] }
    [⟨"ui"⟩, ⟨"bug"⟩] [⟨"bob"⟩, ⟨"alice"⟩] (by decide) (by decide)

/-! ## C2: cache TTL boundary -/

/-- Setting a key into an empty store below the size cap stores exactly one
entry with `expires = now + ttl`. -/
theorem cacheSet_empty {α : Type} (maxSize now : Nat) (key : String) (v : α)
    (ttl : Nat) (hmax : 0 < maxSize) :
    cacheSet maxSize now key v ttl [] =
      [(key, { data := v, timestamp := now, ttl := ttl, expires := now + ttl })] := by
  unfold cacheSet setKey enforceMaxCacheSize
  simp
  omega

/-- C2 (amended): `get` returns the cached value iff the entry is present and
`now ≤ expiresAt`; an expired entry (`now > expiresAt`) is a miss and is
evicted, and a missing entry is a miss.  Consequently an entry set with the
given `ttl` at `t = 0` is retrievable at every `t ≤ ttl` — including exactly
`t = ttl` — and is a miss (with the stale entry evicted) at every `t > ttl`.
With `ttl = 1000` this retrieves at `t = 999` and `t = 1000` and misses at
`t = 1001`. -/
theorem cacheGet_expiry_spec {α : Type} (now : Nat) (key : String)
    (store : CacheStore α) (v : α) (ttl maxSize t : Nat) (hmax : 0 < maxSize) :
    (∀ e, store.lookup key = some e →
      cacheGet now key store =
        if now ≤ e.expires then (some e.data, store)
        else (none, cacheDelete key store)) ∧
    (store.lookup key = none → cacheGet now key store = (none, store)) ∧
    (t ≤ ttl →
      cacheGet t key (cacheSet maxSize 0 key v ttl []) =
        (some v, cacheSet maxSize 0 key v ttl [])) ∧
    (ttl < t → cacheGet t key (cacheSet maxSize 0 key v ttl []) = (none, [])) := by
  refine ⟨?_, ?_, ?_, ?_⟩
  · intro e he
    unfold cacheGet
    rw [he]
    by_cases hle : now ≤ e.expires
    · have : ¬ now > e.expires := by omega
      simp [this, hle]
    · have : now > e.expires := by omega
      simp [this, hle]
  · intro he
    unfold cacheGet
    rw [he]
  · intro ht
    rw [cacheSet_empty _ _ _ _ _ hmax]
    unfold cacheGet
    have hgt : ¬ t > 0 + ttl := by omega
    simp [List.lookup, hgt]
    omega
  · intro ht
    rw [cacheSet_empty _ _ _ _ _ hmax]
    unfold cacheGet
    have hgt : t > 0 + ttl := by omega
    simp [List.lookup, hgt, cacheDelete]
    omega

/-- Witness for C2: a concrete entry with `ttl = 1000` set at `t = 0` is
still returned at `t = 1000` and is an evicted miss at `t = 1001`. -/
theorem cacheGet_expiry_spec_witness :
    cacheGet 1000 "k" (cacheSet 100 0 "k" (42 : Nat) 1000 []) =
      (some 42, cacheSet 100 0 "k" (42 : Nat) 1000 []) ∧
    cacheGet 1001 "k" (cacheSet 100 0 "k" (42 : Nat) 1000 []) = (none, []) :=
  ⟨(cacheGet_expiry_spec 0 "k" [] (42 : Nat) 1000 100 1000 (by decide)).2.2.1 (by decide),
   (cacheGet_expiry_spec 0 "k" [] (42 : Nat) 1000 100 1001 (by decide)).2.2.2 (by decide)⟩

/-- Counterexample for C2 as stated: the claim says an entry set with
`ttl = 1000` at `t = 0` is a miss at every time `≥ 1000`, including exactly
`t = 1000`; but the source misses only when `Date.now() > expires`, so at
exactly `t = 1000` the value is still returned. -/
theorem cacheGet_boundary_hit_at_expiry :
    (cacheGet 1000 "k" (cacheSet 100 0 "k" (42 : Nat) 1000 [])).1 = some 42 ∧
    (cacheGet 1000 "k" (cacheSet 100 0 "k" (42 : Nat) 1000 [])).1 ≠ none := by
  decide

/-! ## C6: what `markIssueProcessed` writes -/

/-- C6 (amended): `markIssueProcessed` upserts the ledger entry keyed by the
issue's identifier with exactly the issue's current fingerprint, the given
artifact path, the current timestamp, and the issue's raw lifecycle `state`
field (e.g. `"open"`/`"closed"`) — not the derived category; every other
ledger entry and every other ledger field is left unchanged. -/
theorem markIssueProcessed_upsert_spec (h : String → String) (now fp : String)
    (issue : Issue) (d : SyncData) :
    (markIssueProcessed h now issue fp d).issues.lookup issue.number =
      some { hash := generateIssueHash h issue, filePath := fp,
             lastProcessed := now, state := issue.state } ∧
    (∀ k, k ≠ issue.number →
      (markIssueProcessed h now issue fp d).issues.lookup k = d.issues.lookup k) ∧
    (markIssueProcessed h now issue fp d).lastSync = d.lastSync ∧
    (markIssueProcessed h now issue fp d).deletedIssues = d.deletedIssues ∧
    (markIssueProcessed h now issue fp d).version = d.version := by
  refine ⟨?_, ?_, rfl, rfl, rfl⟩
  · exact lookup_setKey_self issue.number _ d.issues
  · intro k hk
    exact lookup_setKey_ne _ d.issues hk

/-- Witness for C6 (amended) at a concrete issue and ledger. -/
theorem markIssueProcessed_upsert_spec_witness :
    (markIssueProcessed idHash "2024-01-02T00:00:00Z" blockedOpenIssue
        "blocked/5-stuck-work.md" sampleLedger).issues.lookup blockedOpenIssue.number =
      some { hash := generateIssueHash idHash blockedOpenIssue,
             filePath := "blocked/5-stuck-work.md",
             lastProcessed := "2024-01-02T00:00:00Z",
             state := blockedOpenIssue.state } ∧
    (∀ k, k ≠ blockedOpenIssue.number →
      (markIssueProcessed idHash "2024-01-02T00:00:00Z" blockedOpenIssue
          "blocked/5-stuck-work.md" sampleLedger).issues.lookup k =
        sampleLedger.issues.lookup k) ∧
    (markIssueProcessed idHash "2024-01-02T00:00:00Z" blockedOpenIssue
        "blocked/5-stuck-work.md" sampleLedger).lastSync = sampleLedger.lastSync ∧
    (markIssueProcessed idHash "2024-01-02T00:00:00Z" blockedOpenIssue
        "blocked/5-stuck-work.md" sampleLedger).deletedIssues = sampleLedger.deletedIssues ∧
    (markIssueProcessed idHash "2024-01-02T00:00:00Z" blockedOpenIssue
        "blocked/5-stuck-work.md" sampleLedger).version = sampleLedger.version :=
  markIssueProcessed_upsert_spec idHash "2024-01-02T00:00:00Z"
    "blocked/5-stuck-work.md" blockedOpenIssue sampleLedger

/-- Counterexample for C6 as stated: for an open issue labelled `"Blocked"`
the classifier derives `blocked`, but the ledger entry written by
`markIssueProcessed` stores the raw state `"open"`, which differs from the
derived category and is not one of `{active, todo, done, blocked}` at all. -/
theorem markIssueProcessed_stores_raw_state :
    ((markIssueProcessed idHash "2024-01-02T00:00:00Z" blockedOpenIssue
        "blocked/5-stuck-work.md" (mkSyncData [])).issues.lookup 5).map
      (fun e => e.state) = some "open" ∧
    categorizeIssue blockedOpenIssue = Category.blocked ∧
    ("open" : String) ≠ Category.dirName (categorizeIssue blockedOpenIssue) ∧
    ¬ ("open" ∈ ["active", "todo", "done", "blocked"]) := by
  decide

/-! ## C7: ledger storage failures -/

/-- C7 (amended): failures to read or write the ledger's storage location do
not surface to the caller: `saveSyncData` catches any write failure and
returns normally (it never returns an error), and `loadSyncData` turns any
read or parse failure — and a missing file — into the default empty ledger. -/
theorem syncData_io_failures_swallowed (w : Except String Unit) (e : String) :
    saveSyncData w = Except.ok () ∧
    loadSyncData (Except.error e) = defaultSyncData ∧
    loadSyncData (Except.ok none) = defaultSyncData := by
  refine ⟨?_, rfl, rfl⟩
  cases w <;> rfl

/-- Counterexample for C7 as stated: a concrete failed write (or read) of the
ledger's own storage location produces a normal return and the default
ledger, not an error surfaced to the caller. -/
theorem saveSyncData_error_not_surfaced :
    saveSyncData (Except.error "EACCES: permission denied, open sync-file") =
      Except.ok () ∧
    loadSyncData (Except.error "EACCES: permission denied, read sync-file") =
      defaultSyncData :=
  ⟨rfl, rfl⟩

/-! ## C1: partition completeness of the change-set computation -/

/-- Bucketing a list by the three verdicts of a classifier function yields a
permutation of the list. -/
theorem three_way_filter_perm (l : List Issue) (f : Issue → UpdateReason) :
    (l.filter (fun i => f i = UpdateReason.new) ++
      l.filter (fun i => f i = UpdateReason.updated) ++
      l.filter (fun i => f i = UpdateReason.unchanged)).Perm l := by
  induction l with
  | nil => simp
  | cons i t ih =>
    cases hf : f i with
    | new =>
      simp only [List.filter_cons, hf]
      rw [if_pos (by decide), if_neg (by decide), if_neg (by decide)]
      exact ih.cons i
    | updated =>
      simp only [List.filter_cons, hf]
      rw [if_neg (by decide), if_pos (by decide), if_neg (by decide)]
      exact (List.perm_middle.append_right _).trans (ih.cons i)
    | unchanged =>
      simp only [List.filter_cons, hf]
      rw [if_neg (by decide), if_neg (by decide), if_pos (by decide)]
      exact List.perm_middle.trans (ih.cons i)

/-- Projecting the keys of a key-filtered association list is filtering the
projected keys. -/
theorem map_fst_filter_keys {α : Type} (p : Nat → Bool) (l : List (Nat × α)) :
    (l.filter (fun kv => p kv.1)).map (fun kv => kv.1) =
      (l.map (fun kv => kv.1)).filter p := by
  induction l with
  | nil => simp
  | cons kv t ih =>
    by_cases hp : p kv.1 <;> simp [List.filter_cons, hp, ih]

/-- C1: the change partition is total and disjoint over identifiers.  Every
identifier of the fetched list (identifiers are unique per the data model,
and ledger keys are unique since JS objects cannot repeat keys) occurs
exactly once across `new ++ updated ++ unchanged` and never in `deleted`;
every identifier not fetched occurs there zero times and occurs in `deleted`
exactly once if the ledger holds it, zero times otherwise; and the union of
the four partitions' identifiers is exactly
`fetchedIds ∪ (ledgerIds \ fetchedIds)`. -/
theorem getChangedIssues_partition_complete (h : String → String) (d : SyncData)
    (issues : List Issue) (hI : (issueNumbers issues).Nodup)
    (hL : (ledgerKeys d).Nodup) :
    (∀ n, n ∈ issueNumbers issues →
      (issueNumbers (getChangedIssues h d issues).new ++
        issueNumbers (getChangedIssues h d issues).updated ++
        issueNumbers (getChangedIssues h d issues).unchanged).count n = 1 ∧
      (deletedNumbers (getChangedIssues h d issues).deleted).count n = 0) ∧
    (∀ n, n ∉ issueNumbers issues →
      (issueNumbers (getChangedIssues h d issues).new ++
        issueNumbers (getChangedIssues h d issues).updated ++
        issueNumbers (getChangedIssues h d issues).unchanged).count n = 0 ∧
      (deletedNumbers (getChangedIssues h d issues).deleted).count n =
        (if n ∈ ledgerKeys d then 1 else 0)) ∧
    (∀ n, n ∈ issueNumbers (getChangedIssues h d issues).new ++
        issueNumbers (getChangedIssues h d issues).updated ++
        issueNumbers (getChangedIssues h d issues).unchanged ++
        deletedNumbers (getChangedIssues h d issues).deleted ↔
      n ∈ issueNumbers issues ∨
        (n ∈ ledgerKeys d ∧ n ∉ issueNumbers issues)) := by
  have hperm : ((getChangedIssues h d issues).new ++
      (getChangedIssues h d issues).updated ++
      (getChangedIssues h d issues).unchanged).Perm issues :=
    three_way_filter_perm issues (needsUpdate h d)
  have hthree : (issueNumbers (getChangedIssues h d issues).new ++
      issueNumbers (getChangedIssues h d issues).updated ++
      issueNumbers (getChangedIssues h d issues).unchanged).Perm
        (issueNumbers issues) := by
    have := hperm.map (fun i => i.number)
    simpa [issueNumbers] using this
  have hdel : deletedNumbers (getChangedIssues h d issues).deleted =
      (ledgerKeys d).filter
        (fun k => !(issues.map (fun i => i.number)).contains k) := by
    simp only [deletedNumbers, getChangedIssues, ledgerKeys, List.map_map]
    have hcomp : ((fun dd : DeletedIssue => dd.number) ∘
        (fun kv : Nat × StoredIssueData =>
          ({ number := kv.1, filePath := kv.2.filePath,
             lastState := kv.2.state } : DeletedIssue))) =
        (fun kv : Nat × StoredIssueData => kv.1) := rfl
    rw [hcomp]
    exact map_fst_filter_keys
      (fun k => !(List.map (fun i => i.number) issues).contains k) d.issues
  have hdel_mem : ∀ n, n ∈ deletedNumbers (getChangedIssues h d issues).deleted ↔
      n ∈ ledgerKeys d ∧ n ∉ issueNumbers issues := by
    intro n
    rw [hdel]
    simp [List.mem_filter, issueNumbers]
  refine ⟨?_, ?_, ?_⟩
  · intro n hn
    refine ⟨?_, ?_⟩
    · rw [hthree.count_eq]
      exact List.count_eq_one_of_mem hI hn
    · rw [List.count_eq_zero]
      rw [hdel_mem]
      rintro ⟨-, habs⟩
      exact habs hn
  · intro n hn
    refine ⟨?_, ?_⟩
    · rw [hthree.count_eq, List.count_eq_zero]
      exact hn
    · by_cases hnl : n ∈ ledgerKeys d
      · rw [if_pos hnl, hdel]
        apply List.count_eq_one_of_mem (hL.filter _)
        simp only [List.mem_filter, Bool.not_eq_true']
        refine ⟨hnl, ?_⟩
        simp only [issueNumbers] at hn
        simp [hn]
      · rw [if_neg hnl, List.count_eq_zero]
        rw [hdel_mem]
        rintro ⟨habs, -⟩
        exact hnl habs
  · intro n
    have hfour := hdel_mem n
    have hfetch : n ∈ issueNumbers (getChangedIssues h d issues).new ∨
        n ∈ issueNumbers (getChangedIssues h d issues).updated ∨
        n ∈ issueNumbers (getChangedIssues h d issues).unchanged ↔
        n ∈ issueNumbers issues := by
      rw [← List.mem_append, ← List.mem_append, ← List.append_assoc]
      exact hthree.mem_iff
    simp only [List.mem_append] at *
    tauto

/-- Witness for C1: the partition property instantiated at a concrete fetch
(issues 1 and 2) against a concrete ledger (stale entries for 2 and 3), with
both uniqueness hypotheses discharged by computation. -/
theorem getChangedIssues_partition_complete_witness :
    ((issueNumbers sampleIssues).Nodup ∧ (ledgerKeys sampleLedger).Nodup) ∧
    ((∀ n, n ∈ issueNumbers sampleIssues →
      (issueNumbers (getChangedIssues idHash sampleLedger sampleIssues).new ++
        issueNumbers (getChangedIssues idHash sampleLedger sampleIssues).updated ++
        issueNumbers (getChangedIssues idHash sampleLedger sampleIssues).unchanged).count n = 1 ∧
      (deletedNumbers (getChangedIssues idHash sampleLedger sampleIssues).deleted).count n = 0) ∧
    (∀ n, n ∉ issueNumbers sampleIssues →
      (issueNumbers (getChangedIssues idHash sampleLedger sampleIssues).new ++
        issueNumbers (getChangedIssues idHash sampleLedger sampleIssues).updated ++
        issueNumbers (getChangedIssues idHash sampleLedger sampleIssues).unchanged).count n = 0 ∧
      (deletedNumbers (getChangedIssues idHash sampleLedger sampleIssues).deleted).count n =
        (if n ∈ ledgerKeys sampleLedger then 1 else 0)) ∧
    (∀ n, n ∈ issueNumbers (getChangedIssues idHash sampleLedger sampleIssues).new ++
        issueNumbers (getChangedIssues idHash sampleLedger sampleIssues).updated ++
        issueNumbers (getChangedIssues idHash sampleLedger sampleIssues).unchanged ++
        deletedNumbers (getChangedIssues idHash sampleLedger sampleIssues).deleted ↔
      n ∈ issueNumbers sampleIssues ∨
        (n ∈ ledgerKeys sampleLedger ∧ n ∉ issueNumbers sampleIssues))) :=
  ⟨⟨by decide, by decide⟩,
   getChangedIssues_partition_complete idHash sampleLedger sampleIssues
     (by decide) (by decide)⟩

/-! ## C5: idempotence of a full synchronization pass -/

/-- Membership after removing the deleted entries: an entry survives
`cleanupDeletedIssues` exactly when it was present and matches no deleted
record's number. -/
theorem mem_cleanupDeletedIssues (dels : List DeletedIssue) (d : SyncData)
    (kv : Nat × StoredIssueData) :
    kv ∈ (cleanupDeletedIssues dels d).issues ↔
      kv ∈ d.issues ∧ ∀ del ∈ dels, kv.1 ≠ del.number := by
  induction dels generalizing d with
  | nil => simp [cleanupDeletedIssues]
  | cons del t ih =>
    simp only [cleanupDeletedIssues, List.foldl_cons] at ih ⊢
    rw [ih]
    simp only [List.mem_filter, decide_eq_true_eq]
    constructor
    · rintro ⟨⟨hmem, hne⟩, hall⟩
      exact ⟨hmem, by simpa [hne] using hall⟩
    · rintro ⟨hmem, hall⟩
      have hne := hall del (by simp)
      exact ⟨⟨hmem, hne⟩, fun x hx => hall x (by simp [hx])⟩

/-- Membership in an upserted association list comes from the new pair or
from the old list. -/
theorem mem_setKey {κ α : Type} [DecidableEq κ] {kv : κ × α} (k : κ) (v : α)
    (l : List (κ × α)) (h : kv ∈ setKey k v l) : kv = (k, v) ∨ kv ∈ l := by
  induction l with
  | nil => simpa [setKey] using h
  | cons p t ih =>
    by_cases hk : p.1 = k
    · cases p
      simp only [setKey, if_pos hk, List.mem_cons] at h
      rcases h with h | h
      · exact Or.inl h
      · exact Or.inr (List.mem_cons_of_mem _ h)
    · cases p
      simp only [setKey, if_neg hk, List.mem_cons] at h
      rcases h with h | h
      · exact Or.inr (by simp [h])
      · rcases ih h with h' | h'
        · exact Or.inl h'
        · exact Or.inr (List.mem_cons_of_mem _ h')

/-- After marking every issue of a list with pairwise-distinct numbers,
looking up any of their numbers yields exactly the entry written for it;
every other key is untouched; and every ledger entry is either an original
one or keyed by a marked issue. -/
theorem foldl_mark_spec (h : String → String) (now : String) (pf : Issue → String)
    (l : List Issue) (s : SyncData) (hnd : (issueNumbers l).Nodup) :
    (∀ i ∈ l,
      (l.foldl (fun acc i => markIssueProcessed h now i (pf i) acc) s).issues.lookup
          i.number =
        some { hash := generateIssueHash h i, filePath := pf i,
               lastProcessed := now, state := i.state }) ∧
    (∀ k, k ∉ issueNumbers l →
      (l.foldl (fun acc i => markIssueProcessed h now i (pf i) acc) s).issues.lookup k =
        s.issues.lookup k) ∧
    (∀ kv, kv ∈ (l.foldl (fun acc i => markIssueProcessed h now i (pf i) acc) s).issues →
      kv ∈ s.issues ∨ kv.1 ∈ issueNumbers l) := by
  induction l generalizing s with
  | nil =>
    refine ⟨by simp, by simp, ?_⟩
    intro kv hkv
    exact Or.inl hkv
  | cons i t ih =>
    have hcons : (i.number :: issueNumbers t).Nodup := by
      simpa [issueNumbers] using hnd
    have hni : i.number ∉ issueNumbers t := (List.nodup_cons.mp hcons).1
    have hndt : (issueNumbers t).Nodup := (List.nodup_cons.mp hcons).2
    obtain ⟨ihA, ihB, ihC⟩ := ih (markIssueProcessed h now i (pf i) s) hndt
    refine ⟨?_, ?_, ?_⟩
    · intro j hj
      rcases List.mem_cons.mp hj with hj | hj
      · subst hj
        rw [List.foldl_cons, ihB j.number hni]
        exact lookup_setKey_self j.number _ s.issues
      · rw [List.foldl_cons]
        exact ihA j hj
    · intro k hk
      have hk2 : k ∉ i.number :: issueNumbers t := by
        simpa [issueNumbers] using hk
      have hkt : k ∉ issueNumbers t := fun hx => hk2 (List.mem_cons_of_mem _ hx)
      have hki : k ≠ i.number := fun hx => hk2 (by simp [hx])
      rw [List.foldl_cons, ihB k hkt]
      exact lookup_setKey_ne _ s.issues hki
    · intro kv hkv
      rw [List.foldl_cons] at hkv
      have hmemx : kv.1 ∈ i.number :: issueNumbers t → kv.1 ∈ issueNumbers (i :: t) := by
        intro hx
        simpa [issueNumbers] using hx
      rcases ihC kv hkv with hkv' | hkv'
      · rcases mem_setKey i.number _ s.issues hkv' with hkv'' | hkv''
        · right
          apply hmemx
          simp [hkv'']
        · exact Or.inl hkv''
      · right
        exact hmemx (List.mem_cons_of_mem _ hkv')

/-- C5 (amended): a full synchronization pass is idempotent.  Running the
change-set computation, removing the `deleted` entries from the ledger (as
`performIncrementalSync` does through `cleanupDeletedIssues`), marking every
fetched item processed, and running the change-set computation again on the
same item list (whose identifiers are unique, per the data model) yields
`new = []`, `updated = []`, `deleted = []` and `unchanged` equal to the whole
item list. -/
theorem sync_pass_idempotent (h : String → String) (now : String)
    (pf : Issue → String) (d : SyncData) (issues : List Issue)
    (hI : (issueNumbers issues).Nodup) :
    (getChangedIssues h
      (issues.foldl (fun acc i => markIssueProcessed h now i (pf i) acc)
        (cleanupDeletedIssues (getChangedIssues h d issues).deleted d))
      issues).new = [] ∧
    (getChangedIssues h
      (issues.foldl (fun acc i => markIssueProcessed h now i (pf i) acc)
        (cleanupDeletedIssues (getChangedIssues h d issues).deleted d))
      issues).updated = [] ∧
    (getChangedIssues h
      (issues.foldl (fun acc i => markIssueProcessed h now i (pf i) acc)
        (cleanupDeletedIssues (getChangedIssues h d issues).deleted d))
      issues).deleted = [] ∧
    (getChangedIssues h
      (issues.foldl (fun acc i => markIssueProcessed h now i (pf i) acc)
        (cleanupDeletedIssues (getChangedIssues h d issues).deleted d))
      issues).unchanged = issues := by
  obtain ⟨hA, hB, hC⟩ := foldl_mark_spec h now pf issues
    (cleanupDeletedIssues (getChangedIssues h d issues).deleted d) hI
  have hreason : ∀ i ∈ issues,
      needsUpdate h
        (issues.foldl (fun acc i => markIssueProcessed h now i (pf i) acc)
          (cleanupDeletedIssues (getChangedIssues h d issues).deleted d)) i =
        UpdateReason.unchanged := by
    intro i hi
    unfold needsUpdate
    rw [hA i hi]
    simp
  have hkeys : ∀ kv, kv ∈ (issues.foldl
        (fun acc i => markIssueProcessed h now i (pf i) acc)
        (cleanupDeletedIssues (getChangedIssues h d issues).deleted d)).issues →
      kv.1 ∈ issueNumbers issues := by
    intro kv hkv
    rcases hC kv hkv with hkv' | hkv'
    · rw [mem_cleanupDeletedIssues] at hkv'
      obtain ⟨hmem, hall⟩ := hkv'
      by_contra hnot
      refine hall
        { number := kv.1, filePath := kv.2.filePath, lastState := kv.2.state }
        ?_ rfl
      show _ ∈ (getChangedIssues h d issues).deleted
      simp only [getChangedIssues]
      refine List.mem_map.mpr ⟨kv, List.mem_filter.mpr ⟨hmem, ?_⟩, rfl⟩
      simp only [Bool.not_eq_eq_eq_not, Bool.not_true]
      simp only [issueNumbers] at hnot
      simp [hnot]
    · exact hkv'
  refine ⟨?_, ?_, ?_, ?_⟩
  · apply List.filter_eq_nil_iff.mpr
    intro i hi
    simp [hreason i hi]
  · apply List.filter_eq_nil_iff.mpr
    intro i hi
    simp [hreason i hi]
  · show (List.filter _ _).map _ = []
    rw [List.filter_eq_nil_iff.mpr, List.map_nil]
    intro kv hkv
    have := hkeys kv hkv
    simp only [issueNumbers] at this
    simp [this]
  · apply List.filter_eq_self.mpr
    intro i hi
    simp [hreason i hi]

set_option maxRecDepth 40000 in
/-- Witness for C5 (amended): the idempotence property at a concrete fetch
and ledger, the uniqueness hypothesis discharged by computation. -/
theorem sync_pass_idempotent_witness :
    ((issueNumbers sampleIssues).Nodup) ∧
    ((getChangedIssues idHash
      (sampleIssues.foldl
        (fun acc i => markIssueProcessed idHash "t1" i (generateFilename i) acc)
        (cleanupDeletedIssues (getChangedIssues idHash sampleLedger sampleIssues).deleted
          sampleLedger))
      sampleIssues).new = [] ∧
    (getChangedIssues idHash
      (sampleIssues.foldl
        (fun acc i => markIssueProcessed idHash "t1" i (generateFilename i) acc)
        (cleanupDeletedIssues (getChangedIssues idHash sampleLedger sampleIssues).deleted
          sampleLedger))
      sampleIssues).updated = [] ∧
    (getChangedIssues idHash
      (sampleIssues.foldl
        (fun acc i => markIssueProcessed idHash "t1" i (generateFilename i) acc)
        (cleanupDeletedIssues (getChangedIssues idHash sampleLedger sampleIssues).deleted
          sampleLedger))
      sampleIssues).deleted = [] ∧
    (getChangedIssues idHash
      (sampleIssues.foldl
        (fun acc i => markIssueProcessed idHash "t1" i (generateFilename i) acc)
        (cleanupDeletedIssues (getChangedIssues idHash sampleLedger sampleIssues).deleted
          sampleLedger))
      sampleIssues).unchanged = sampleIssues) :=
  ⟨by decide,
   sync_pass_idempotent idHash "t1" generateFilename sampleLedger sampleIssues (by decide)⟩

set_option maxRecDepth 40000 in
/-- Counterexample for C5 as stated: with the ledger still holding a stale
entry for the no-longer-fetched issue 3, running the change-set computation,
then `markIssueProcessed` for every fetched item (the computation itself
mutates nothing), then the change-set computation again yields
`deleted ≠ []` — the stale entry is reported as deleted on every pass until
`cleanupDeletedIssues` removes it, so the claimed `deleted = []` fails. -/
theorem sync_idempotence_without_cleanup_fails :
    (getChangedIssues idHash
      (sampleIssues.foldl
        (fun acc i => markIssueProcessed idHash "t1" i (generateFilename i) acc)
        sampleLedger)
      sampleIssues).new = [] ∧
    (getChangedIssues idHash
      (sampleIssues.foldl
        (fun acc i => markIssueProcessed idHash "t1" i (generateFilename i) acc)
        sampleLedger)
      sampleIssues).updated = [] ∧
    (getChangedIssues idHash
      (sampleIssues.foldl
        (fun acc i => markIssueProcessed idHash "t1" i (generateFilename i) acc)
        sampleLedger)
      sampleIssues).unchanged = sampleIssues ∧
    (getChangedIssues idHash
      (sampleIssues.foldl
        (fun acc i => markIssueProcessed idHash "t1" i (generateFilename i) acc)
        sampleLedger)
      sampleIssues).deleted ≠ [] := by
  refine ⟨by decide, by decide, by decide, by decide⟩

/-! ## C10: filenames round-trip the issue identifier -/

/-- Decimal digit characters are digits. -/
theorem digitChar_isDigit (k : Nat) (hk : k < 10) : isDigitChar (digitChar k) = true := by
  interval_cases k <;> decide

/-- Code of a decimal digit character. -/
theorem digitChar_toNat (k : Nat) (hk : k < 10) : (digitChar k).toNat = 48 + k := by
  interval_cases k <;> decide

/-- Every character of the decimal rendering is a digit. -/
theorem natToChars_digits (n : Nat) : ∀ c ∈ natToChars n, isDigitChar c = true := by
  induction n using Nat.strong_induction_on with
  | _ n ih =>
    rw [natToChars]
    by_cases h : n < 10
    · simp only [if_pos h]
      intro c hc
      simp only [List.mem_singleton] at hc
      subst hc
      exact digitChar_isDigit n h
    · simp only [if_neg h]
      intro c hc
      rcases List.mem_append.mp hc with hc | hc
      · exact ih (n / 10) (Nat.div_lt_self (by omega) (by omega)) c hc
      · simp only [List.mem_singleton] at hc
        subst hc
        exact digitChar_isDigit (n % 10) (Nat.mod_lt _ (by omega))

/-- The decimal rendering is never empty. -/
theorem natToChars_ne_nil (n : Nat) : natToChars n ≠ [] := by
  rw [natToChars]
  split <;> simp

/-- Parsing the decimal rendering recovers the number. -/
theorem digitsToNat_natToChars (n : Nat) : digitsToNat (natToChars n) = n := by
  induction n using Nat.strong_induction_on with
  | _ n ih =>
    rw [natToChars]
    by_cases h : n < 10
    · simp only [if_pos h]
      simp [digitsToNat, digitChar_toNat n h]
    · simp only [if_neg h]
      show List.foldl _ 0 _ = n
      rw [List.foldl_append]
      simp only [List.foldl_cons, List.foldl_nil]
      have hdiv : List.foldl (fun acc c => acc * 10 + (c.toNat - 48)) 0
          (natToChars (n / 10)) = n / 10 :=
        ih (n / 10) (Nat.div_lt_self (by omega) (by omega))
      rw [hdiv, digitChar_toNat (n % 10) (Nat.mod_lt _ (by omega))]
      omega

/-- A `takeWhile` over an all-true block followed by a failing character
takes exactly the block; the `dropWhile` leaves the failing character and the
tail. -/
theorem takeWhile_all_stop {p : Char → Bool} (l₁ : List Char) (c : Char)
    (l₂ : List Char) (h1 : ∀ x ∈ l₁, p x = true) (h2 : p c = false) :
    ((l₁ ++ c :: l₂).takeWhile p = l₁) ∧ ((l₁ ++ c :: l₂).dropWhile p = c :: l₂) := by
  induction l₁ with
  | nil => simp [List.takeWhile_cons, List.dropWhile_cons, h2]
  | cons x t ih =>
    have hx := h1 x (by simp)
    have ih' := ih (fun y hy => h1 y (by simp [hy]))
    simp [List.takeWhile_cons, List.dropWhile_cons, hx, ih'.1, ih'.2]

/-- The slug construction ends with a non-empty fallback: either the
assembled slug characters, or the literal `"issue"`. -/
theorem fallbackSlug_ne_empty (L : List Char) :
    (if L = [] then "issue" else String.mk L) ≠ "" := by
  split
  · decide
  · rename_i hL
    intro heq
    exact hL (congrArg String.data heq)

/-- C10: for every issue with a positive identifier, the generated filename
is `"<number>-<slug>.md"`, the slug produced is never empty (falling back to
`"issue"`), and the reorganize scan's leading-digit extraction recovers
exactly the issue's number — the digit run stops at the `'-'` separator, so
the slug can never contribute to it. -/
theorem generateFilename_roundtrip (issue : Issue) (hpos : 0 < issue.number) :
    extractIssueNumber (generateFilename issue) = some issue.number ∧
    createSlug (if issue.title = "" then "untitled" else issue.title) ≠ "" := by
  have hnz : ¬ issue.number = 0 := by omega
  constructor
  · unfold generateFilename
    rw [if_neg hnz]
    have hlist : (String.mk (natToChars issue.number) ++ "-" ++
        createSlug (if issue.title = "" then "untitled" else issue.title) ++
          ".md").toList =
        natToChars issue.number ++ '-' ::
          ((createSlug (if issue.title = "" then "untitled" else issue.title)).toList ++
            ['.', 'm', 'd']) := by
      show (_ : String).data = _
      rw [String.data_append, String.data_append, String.data_append]
      simp
    obtain ⟨htake, hdrop⟩ := takeWhile_all_stop (p := isDigitChar)
      (natToChars issue.number) '-'
      ((createSlug (if issue.title = "" then "untitled" else issue.title)).toList ++
        ['.', 'm', 'd'])
      (natToChars_digits issue.number) (by decide)
    unfold extractIssueNumber
    rw [hlist, htake, hdrop]
    rw [if_neg (natToChars_ne_nil issue.number)]
    simp [digitsToNat_natToChars]
  · unfold createSlug
    split
    · exact fallbackSlug_ne_empty _
    · exact fallbackSlug_ne_empty _

/-- Witness for C10 at the concrete issue 42 titled `"Fix: the BUG"` (whose
slug is `"fix-the-bug"`). -/
theorem generateFilename_roundtrip_witness :
    0 < (mkIssue 42 "Fix: the BUG" "open" []).number ∧
    (extractIssueNumber (generateFilename (mkIssue 42 "Fix: the BUG" "open" [])) =
      some (mkIssue 42 "Fix: the BUG" "open" []).number ∧
    createSlug (if (mkIssue 42 "Fix: the BUG" "open" []).title = "" then "untitled"
      else (mkIssue 42 "Fix: the BUG" "open" []).title) ≠ "") :=
  ⟨by decide, generateFilename_roundtrip (mkIssue 42 "Fix: the BUG" "open" []) (by decide)⟩

/-! ## C9: what the cache-key replacer array hides — and what it does not -/

/-- Lookup misses every key that is not among an association list's keys. -/
theorem lookup_eq_none_of_not_mem_keys (kvs : List (String × Json)) (k : String)
    (h : k ∉ kvs.map (fun kv => kv.1)) : kvs.lookup k = none := by
  induction kvs with
  | nil => rfl
  | cons p t ih =>
    have hk : ¬ k = p.1 := fun hx => h (by simp [hx])
    have hbeq : (k == p.1) = false := by simpa using hk
    cases p
    simp only [List.lookup, hbeq]
    exact ih (fun hx => h (by simp at hx ⊢; exact Or.inr hx))

/-- Value-filtering an object commutes with lookup. -/
theorem lookup_pruneFields (plist : List String) (kvs : List (String × Json))
    (k : String) :
    (pruneFields plist kvs).lookup k = (kvs.lookup k).map (pruneByKeys plist) := by
  induction kvs with
  | nil => rfl
  | cons p t ih =>
    cases p with
    | mk pk pv =>
      rw [pruneFields]
      by_cases hk : k = pk
      · subst hk
        simp [List.lookup]
      · have hbeq : (k == pk) = false := by simpa using hk
        simp [List.lookup, hbeq, ih]

/-- A nested object none of whose keys occur in the replacer array is
filtered down to the empty object. -/
theorem pruneByKeys_obj_disjoint (plist : List String) (f : List (String × Json))
    (h : ∀ k ∈ f.map (fun kv => kv.1), k ∉ plist) :
    pruneByKeys plist (Json.obj f) = Json.obj [] := by
  rw [pruneByKeys]
  congr 1
  unfold selectKeys
  apply List.filterMap_eq_nil_iff.mpr
  intro k hk
  rw [lookup_pruneFields]
  rw [lookup_eq_none_of_not_mem_keys f k (fun hmem => h k hmem hk)]
  rfl

/-- Key selection only depends on the object through lookups. -/
theorem selectKeys_congr (plist : List String) (a b : List (String × Json))
    (h : ∀ k, a.lookup k = b.lookup k) : selectKeys plist a = selectKeys plist b := by
  unfold selectKeys
  induction plist with
  | nil => rfl
  | cons k t ih => simp [List.filterMap_cons, h k, ih]

/-- Pointwise-hidden objects induce equal pruned lookups: if two association
lists have the same keys and each pair of fields is either equal or a pair of
objects whose own keys avoid `P`, then lookup-then-prune agrees on every
key. -/
theorem lookup_map_prune_eq (P : List String) (l1 l2 : List (String × Json))
    (hvals : List.Forall₂ (fun p q =>
      p.2 = q.2 ∨
      (∃ f1 f2, p.2 = Json.obj f1 ∧ q.2 = Json.obj f2 ∧
        (∀ k ∈ f1.map (fun kv => kv.1), k ∉ P) ∧
        (∀ k ∈ f2.map (fun kv => kv.1), k ∉ P))) l1 l2) :
    l1.map (fun kv => kv.1) = l2.map (fun kv => kv.1) →
    ∀ k, (l1.lookup k).map (pruneByKeys P) = (l2.lookup k).map (pruneByKeys P) := by
  induction hvals with
  | nil => intro _ k; rfl
  | cons hpq hrest ih =>
    intro hkeys k
    rename_i p q t1 t2
    rw [List.map_cons, List.map_cons] at hkeys
    injection hkeys with hpq1 hkeys'
    cases p with
    | mk pk pv =>
      cases q with
      | mk qk qv =>
        simp only at hpq1
        subst hpq1
        by_cases hk : k = pk
        · subst hk
          simp only [List.lookup, beq_self_eq_true, Option.map_some]
          rcases hpq with heq | ⟨f1, f2, h1, h2, hd1, hd2⟩
          · simp only at heq
            rw [heq]
          · simp only at h1 h2
            rw [h1, h2]
            simp [pruneByKeys_obj_disjoint P f1 hd1,
              pruneByKeys_obj_disjoint P f2 hd2]
        · have hbeq : (k == pk) = false := by simpa using hk
          simp only [List.lookup, hbeq]
          exact ih hkeys' k

/-- C9 (amended): the cache key serializes the parameters with a replacer
array holding the sorted top-level key names, which filters out every nested
key **whose name is not itself among the top-level key names**.  Hence two
parameter objects with the same top-level keys whose fields are pairwise
either equal or nested objects none of whose own keys collide with a
top-level key name produce the same cache key — in particular `getIssues`
calls for the same repository whose filter options differ only in standard
option fields (`state`, `labels`, `per_page`, …) resolve to the same key. -/
theorem generateCacheKey_nested_hidden (pre : String)
    (kvs1 kvs2 : List (String × Json))
    (hkeys : kvs1.map (fun kv => kv.1) = kvs2.map (fun kv => kv.1))
    (hvals : List.Forall₂ (fun p q =>
      p.2 = q.2 ∨
      (∃ f1 f2, p.2 = Json.obj f1 ∧ q.2 = Json.obj f2 ∧
        (∀ k ∈ f1.map (fun kv => kv.1),
          k ∉ sortStrings (kvs1.map (fun kv => kv.1))) ∧
        (∀ k ∈ f2.map (fun kv => kv.1),
          k ∉ sortStrings (kvs1.map (fun kv => kv.1)))))
      kvs1 kvs2) :
    generateCacheKey pre (Json.obj kvs1) = generateCacheKey pre (Json.obj kvs2) := by
  have hprune : pruneByKeys (sortStrings (kvs1.map (fun kv => kv.1))) (Json.obj kvs1) =
      pruneByKeys (sortStrings (kvs1.map (fun kv => kv.1))) (Json.obj kvs2) := by
    rw [pruneByKeys, pruneByKeys]
    congr 1
    apply selectKeys_congr
    intro k
    rw [lookup_pruneFields, lookup_pruneFields]
    exact lookup_map_prune_eq _ kvs1 kvs2 hvals hkeys k
  show pre ++ "_" ++ md5Hex (Json.stringify
      (pruneByKeys (sortStrings (kvs1.map (fun kv => kv.1))) (Json.obj kvs1))) =
    pre ++ "_" ++ md5Hex (Json.stringify
      (pruneByKeys (sortStrings (kvs2.map (fun kv => kv.1))) (Json.obj kvs2)))
  rw [← hkeys, hprune]

/-- Evaluation of the canonicalizing sort on the concrete key list used by
the C9 inputs (proved through the order, since Mathlib's string comparison
does not reduce definitionally). -/
theorem sortStrings_keys_eval :
    sortStrings ["owner", "repo", "options"] = ["options", "owner", "repo"] := by
  apply List.eq_of_perm_of_sorted (r := fun a b : String => a ≤ b)
  · exact (List.perm_insertionSort _ _).trans (by decide)
  · exact List.sorted_insertionSort _ _
  · refine List.sorted_cons.mpr ⟨?_, List.sorted_cons.mpr ⟨?_, List.sorted_singleton _⟩⟩
    · intro b hb
      fin_cases hb <;> (rw [String.le_iff_toList_le]; decide)
    · intro b hb
      fin_cases hb
      rw [String.le_iff_toList_le]
      decide

set_option maxRecDepth 200000 in
/-- Witness for C9 (amended): two concrete `getIssues` parameter objects for
the same repository whose filter options differ in standard option fields
(`state`, `labels`, `per_page`) — none of which collides with a top-level key
name — have the same top-level keys and resolve to the same cache key. -/
theorem generateCacheKey_nested_hidden_witness :
    ([("owner", Json.str "o"), ("repo", Json.str "r"),
        ("options", Json.obj [("state", Json.str "open"),
          ("labels", Json.arr [Json.str "bug"])])].map (fun kv => kv.1) =
      [("owner", Json.str "o"), ("repo", Json.str "r"),
        ("options", Json.obj [("state", Json.str "closed"),
          ("per_page", Json.num 50)])].map (fun kv => kv.1)) ∧
    List.Forall₂ (fun p q =>
      p.2 = q.2 ∨
      (∃ f1 f2, p.2 = Json.obj f1 ∧ q.2 = Json.obj f2 ∧
        (∀ k ∈ f1.map (fun kv => kv.1),
          k ∉ sortStrings
            ([("owner", Json.str "o"), ("repo", Json.str "r"),
              ("options", Json.obj [("state", Json.str "open"),
                ("labels", Json.arr [Json.str "bug"])])].map (fun kv => kv.1))) ∧
        (∀ k ∈ f2.map (fun kv => kv.1),
          k ∉ sortStrings
            ([("owner", Json.str "o"), ("repo", Json.str "r"),
              ("options", Json.obj [("state", Json.str "open"),
                ("labels", Json.arr [Json.str "bug"])])].map (fun kv => kv.1)))))
      [("owner", Json.str "o"), ("repo", Json.str "r"),
        ("options", Json.obj [("state", Json.str "open"),
          ("labels", Json.arr [Json.str "bug"])])]
      [("owner", Json.str "o"), ("repo", Json.str "r"),
        ("options", Json.obj [("state", Json.str "closed"),
          ("per_page", Json.num 50)])] ∧
    generateCacheKey "issues"
      (Json.obj [("owner", Json.str "o"), ("repo", Json.str "r"),
        ("options", Json.obj [("state", Json.str "open"),
          ("labels", Json.arr [Json.str "bug"])])]) =
    generateCacheKey "issues"
      (Json.obj [("owner", Json.str "o"), ("repo", Json.str "r"),
        ("options", Json.obj [("state", Json.str "closed"),
          ("per_page", Json.num 50)])]) := by
  have hnotin1 : ∀ k ∈ ([("state", Json.str "open"),
      ("labels", Json.arr [Json.str "bug"])].map (fun kv => kv.1)),
      k ∉ sortStrings
        ([("owner", Json.str "o"), ("repo", Json.str "r"),
          ("options", Json.obj [("state", Json.str "open"),
            ("labels", Json.arr [Json.str "bug"])])].map (fun kv => kv.1)) := by
    intro k hk
    have hs : sortStrings
        ([("owner", Json.str "o"), ("repo", Json.str "r"),
          ("options", Json.obj [("state", Json.str "open"),
            ("labels", Json.arr [Json.str "bug"])])].map (fun kv => kv.1)) =
        ["options", "owner", "repo"] := sortStrings_keys_eval
    rw [hs]
    fin_cases hk <;> decide
  have hnotin2 : ∀ k ∈ ([("state", Json.str "closed"),
      ("per_page", Json.num 50)].map (fun kv => kv.1)),
      k ∉ sortStrings
        ([("owner", Json.str "o"), ("repo", Json.str "r"),
          ("options", Json.obj [("state", Json.str "open"),
            ("labels", Json.arr [Json.str "bug"])])].map (fun kv => kv.1)) := by
    intro k hk
    have hs : sortStrings
        ([("owner", Json.str "o"), ("repo", Json.str "r"),
          ("options", Json.obj [("state", Json.str "open"),
            ("labels", Json.arr [Json.str "bug"])])].map (fun kv => kv.1)) =
        ["options", "owner", "repo"] := sortStrings_keys_eval
    rw [hs]
    fin_cases hk <;> decide
  refine ⟨rfl, ?_, ?_⟩
  · refine List.Forall₂.cons (Or.inl rfl) ?_
    refine List.Forall₂.cons (Or.inl rfl) ?_
    refine List.Forall₂.cons (Or.inr ?_) List.Forall₂.nil
    exact ⟨[("state", Json.str "open"), ("labels", Json.arr [Json.str "bug"])],
      [("state", Json.str "closed"), ("per_page", Json.num 50)],
      rfl, rfl, hnotin1, hnotin2⟩
  · exact generateCacheKey_nested_hidden "issues" _ _ rfl
      (List.Forall₂.cons (Or.inl rfl)
        (List.Forall₂.cons (Or.inl rfl)
          (List.Forall₂.cons
            (Or.inr ⟨[("state", Json.str "open"), ("labels", Json.arr [Json.str "bug"])],
              [("state", Json.str "closed"), ("per_page", Json.num 50)],
              rfl, rfl, hnotin1, hnotin2⟩)
            List.Forall₂.nil)))

set_option maxRecDepth 1000000 in
/-- Counterexample for C9 as stated: the claim asserts the replacer array
filters out **every** nested key, so that any two parameter objects with the
same top-level keys agreeing on their primitive top-level fields get the same
cache key regardless of nested content.  But a nested key that reuses a
top-level key name (here `owner` inside `options`) survives the replacer
filter: these two parameter objects agree on `owner` and `repo` and differ
only inside the nested `options` object, yet their MD5-derived cache keys
differ. -/
theorem generateCacheKey_nested_collision :
    generateCacheKey "issues"
      (Json.obj [("owner", Json.str "o"), ("repo", Json.str "r"),
        ("options", Json.obj [("owner", Json.str "a")])]) ≠
    generateCacheKey "issues"
      (Json.obj [("owner", Json.str "o"), ("repo", Json.str "r"),
        ("options", Json.obj [("owner", Json.str "b")])]) := by
  have h1 : generateCacheKey "issues"
      (Json.obj [("owner", Json.str "o"), ("repo", Json.str "r"),
        ("options", Json.obj [("owner", Json.str "a")])]) =
      "issues" ++ "_" ++ md5Hex (Json.stringify
        (pruneByKeys ["options", "owner", "repo"]
          (Json.obj [("owner", Json.str "o"), ("repo", Json.str "r"),
            ("options", Json.obj [("owner", Json.str "a")])]))) := by
    show "issues" ++ "_" ++ md5Hex (Json.stringify
        (pruneByKeys (sortStrings ["owner", "repo", "options"])
          (Json.obj [("owner", Json.str "o"), ("repo", Json.str "r"),
            ("options", Json.obj [("owner", Json.str "a")])]))) = _
    rw [sortStrings_keys_eval]
  have h2 : generateCacheKey "issues"
      (Json.obj [("owner", Json.str "o"), ("repo", Json.str "r"),
        ("options", Json.obj [("owner", Json.str "b")])]) =
      "issues" ++ "_" ++ md5Hex (Json.stringify
        (pruneByKeys ["options", "owner", "repo"]
          (Json.obj [("owner", Json.str "o"), ("repo", Json.str "r"),
            ("options", Json.obj [("owner", Json.str "b")])]))) := by
    show "issues" ++ "_" ++ md5Hex (Json.stringify
        (pruneByKeys (sortStrings ["owner", "repo", "options"])
          (Json.obj [("owner", Json.str "o"), ("repo", Json.str "r"),
            ("options", Json.obj [("owner", Json.str "b")])]))) = _
    rw [sortStrings_keys_eval]
  rw [h1, h2]
  decide

/-! ## C8: dry-run reorganization counts the same moves and mutates nothing -/

/-- The directory listing is the `Option.getD` of the filesystem entry. -/
theorem listingOrNil_eq_getD (fs : CatFS) (c : Category) :
    listingOrNil fs c = (fs c).getD [] := by
  unfold listingOrNil
  cases fs c <;> rfl

/-- Membership in an overwrite-aware insertion. -/
theorem mem_fsInsert (f f' : String) (l : List String) :
    f' ∈ fsInsert f l ↔ f' ∈ l ∨ f' = f := by
  unfold fsInsert
  split
  · rename_i hc
    have hmem : f ∈ l := by simpa using hc
    constructor
    · exact Or.inl
    · rintro (hm | rfl)
      · exact hm
      · exact hmem
  · simp

/-- Overwrite-aware insertion preserves distinctness of names. -/
theorem nodup_fsInsert (f : String) (l : List String) (h : l.Nodup) :
    (fsInsert f l).Nodup := by
  unfold fsInsert
  split
  · exact h
  · rename_i hc
    have hnot : f ∉ l := by simpa using hc
    simp [List.nodup_append, h, hnot]

/-- A move decision is positive exactly when the expected category exists and
differs from the current directory. -/
theorem moveDecision_eq_expected (imap : List (Nat × Issue)) (c : Category)
    (f : String) :
    moveDecision imap c f =
      (match expectedCat imap f with
        | some e => if c ≠ e then some e else none
        | none => none) := by
  unfold moveDecision expectedCat
  cases hext : extractIssueNumber f with
  | none => simp
  | some n =>
    cases hlook : imap.lookup n with
    | none => simp [hlook]
    | some issue => simp [hlook]

/-- Pruning a directory touches no other directory. -/
theorem cleanupEmptyDirectory_other (c d : Category) (fs : CatFS) (h : d ≠ c) :
    cleanupEmptyDirectory c fs d = fs d := by
  unfold cleanupEmptyDirectory
  cases hc : fs c with
  | none => rfl
  | some l =>
    cases l with
    | nil => simp [h]
    | cons x t => rfl

/-- The count component of a directory scan: the accumulator plus the number
of scanned files with a positive move decision, independently of the mode and
of the evolving filesystem. -/
theorem foldl_reorgStep_count (imap : List (Nat × Issue)) (dryRun : Bool)
    (c : Category) (files : List String) :
    ∀ acc : Nat × CatFS,
      (files.foldl (reorgStep imap dryRun c) acc).1 =
        acc.1 + (files.filter (fun f => (moveDecision imap c f).isSome)).length := by
  induction files with
  | nil => intro acc; simp
  | cons f t ih =>
    intro acc
    rw [List.foldl_cons, List.filter_cons]
    cases hd : moveDecision imap c f with
    | none =>
      have hstep : reorgStep imap dryRun c acc f = acc := by
        unfold reorgStep
        rw [hd]
      rw [hstep]
      simp only [hd, Option.isSome_none]
      rw [ih acc]
      rfl
    | some tgt =>
      have hstep : reorgStep imap dryRun c acc f =
          (acc.1 + 1, if dryRun then acc.2 else moveFile f c tgt acc.2) := by
        unfold reorgStep
        rw [hd]
      rw [hstep, ih _]
      simp only [hd, Option.isSome_some, if_pos]
      simp [Nat.add_comm, Nat.add_assoc, Nat.add_left_comm]

/-- In dry-run mode a directory scan leaves the filesystem component
untouched. -/
theorem foldl_reorgStep_dry_fs (imap : List (Nat × Issue)) (c : Category)
    (files : List String) :
    ∀ acc : Nat × CatFS,
      (files.foldl (reorgStep imap true c) acc).2 = acc.2 := by
  induction files with
  | nil => intro acc; rfl
  | cons f t ih =>
    intro acc
    rw [List.foldl_cons, ih]
    unfold reorgStep
    cases moveDecision imap c f <;> rfl

/-- In dry-run mode the whole pass leaves the filesystem untouched. -/
theorem foldl_reorgDir_dry_fs (imap : List (Nat × Issue)) (ds : List Category) :
    ∀ acc : Nat × CatFS,
      (ds.foldl (reorgDir imap true) acc).2 = acc.2 := by
  induction ds with
  | nil => intro acc; rfl
  | cons c t ih =>
    intro acc
    rw [List.foldl_cons, ih]
    unfold reorgDir
    cases hc : acc.2 c with
    | none => rfl
    | some l =>
      simp only [if_pos]
      exact foldl_reorgStep_dry_fs imap c _ acc

/-- Unfolding equation of the per-directory count sum. -/
theorem sumCounts_cons (imap : List (Nat × Issue)) (fs : CatFS) (c : Category)
    (t : List Category) :
    sumCounts imap fs (c :: t) =
      dirCount imap c (listingOrNil fs c) + sumCounts imap fs t := rfl

/-- The dry-run total is the sum of the per-directory counts against the
unchanged filesystem. -/
theorem foldl_reorgDir_dry_count (imap : List (Nat × Issue)) (ds : List Category) :
    ∀ (n : Nat) (fs : CatFS),
      (ds.foldl (reorgDir imap true) (n, fs)).1 = n + sumCounts imap fs ds := by
  induction ds with
  | nil => intro n fs; simp [sumCounts]
  | cons c t ih =>
    intro n fs
    rw [List.foldl_cons]
    cases hc : fs c with
    | none =>
      have hdir : reorgDir imap true (n, fs) c = (n, fs) := by
        unfold reorgDir
        simp [hc]
      rw [hdir, ih n fs, sumCounts_cons]
      rw [show listingOrNil fs c = [] by unfold listingOrNil; rw [hc]]
      simp [dirCount]
    | some l =>
      have hdir : reorgDir imap true (n, fs) c = (n + dirCount imap c l, fs) := by
        unfold reorgDir
        simp only [hc]
        refine Prod.ext ?_ ?_
        · show ((l.filter (fun f => endsWithStr ".md" f)).foldl
            (reorgStep imap true c) (n, fs)).1 = _
          rw [foldl_reorgStep_count, List.filter_filter]
          have hcomm : ∀ g ∈ l,
              ((moveDecision imap c g).isSome && endsWithStr ".md" g) =
              (endsWithStr ".md" g && (moveDecision imap c g).isSome) :=
            fun g _ => Bool.and_comm _ _
          rw [List.filter_congr hcomm]
          rfl
        · show ((l.filter (fun f => endsWithStr ".md" f)).foldl
            (reorgStep imap true c) (n, fs)).2 = _
          exact foldl_reorgStep_dry_fs imap c _ (n, fs)
      rw [hdir, ih, sumCounts_cons]
      rw [show listingOrNil fs c = l by unfold listingOrNil; rw [hc]]
      omega

/-- A positive move decision names the file's expected category. -/
theorem expected_of_moveDecision (imap : List (Nat × Issue)) (c : Category)
    (f : String) (tgt : Category) (h : moveDecision imap c f = some tgt) :
    expectedCat imap f = some tgt := by
  rw [moveDecision_eq_expected] at h
  cases hexp : expectedCat imap f with
  | none => rw [hexp] at h; simp at h
  | some e =>
    rw [hexp] at h
    by_cases hce : c = e
    · simp [hce] at h
    · have h' : e = tgt := by simpa [Ne, hce] using h
      rw [h']

/-- A file whose expected category is the directory it sits in is never
moved. -/
theorem moveDecision_none_of_expected_self (imap : List (Nat × Issue))
    (c : Category) (f : String) (h : expectedCat imap f = some c) :
    moveDecision imap c f = none := by
  rw [moveDecision_eq_expected, h]
  simp

/-- Pruning a directory does not change another directory's listing. -/
theorem listingOrNil_cleanup_other (c d : Category) (fs : CatFS) (h : d ≠ c) :
    listingOrNil (cleanupEmptyDirectory c fs) d = listingOrNil fs d := by
  unfold listingOrNil
  rw [cleanupEmptyDirectory_other c d fs h]

/-- Effect of one directory's (non-dry) scan on every other directory `d`:
existing names are preserved, any new name was moved in because `d` is its
expected category, and distinctness of names is preserved. -/
theorem foldl_reorgStep_wet_other (imap : List (Nat × Issue)) (c : Category)
    (files : List String) :
    ∀ (acc : Nat × CatFS) (d : Category), d ≠ c →
      (∀ f', f' ∈ listingOrNil acc.2 d →
        f' ∈ listingOrNil (files.foldl (reorgStep imap false c) acc).2 d) ∧
      (∀ f', f' ∈ listingOrNil (files.foldl (reorgStep imap false c) acc).2 d →
        f' ∈ listingOrNil acc.2 d ∨ expectedCat imap f' = some d) ∧
      ((listingOrNil acc.2 d).Nodup →
        (listingOrNil (files.foldl (reorgStep imap false c) acc).2 d).Nodup) := by
  induction files with
  | nil =>
    intro acc d _
    exact ⟨fun f' h => h, fun f' h => Or.inl h, fun h => h⟩
  | cons f t ih =>
    intro acc d hd
    rw [List.foldl_cons]
    cases hmd : moveDecision imap c f with
    | none =>
      have hstep : reorgStep imap false c acc f = acc := by
        unfold reorgStep
        rw [hmd]
      rw [hstep]
      exact ih acc d hd
    | some tgt =>
      have hstep : reorgStep imap false c acc f =
          (acc.1 + 1, moveFile f c tgt acc.2) := by
        unfold reorgStep
        rw [hmd]
        rfl
      rw [hstep]
      obtain ⟨ihA, ihB, ihC⟩ := ih (acc.1 + 1, moveFile f c tgt acc.2) d hd
      by_cases hdt : d = tgt
      · subst hdt
        have happ : moveFile f c d acc.2 d = some (fsInsert f ((acc.2 d).getD [])) := by
          simp only [moveFile]
          rw [if_neg hd]
          simp
        have hlist : listingOrNil (moveFile f c d acc.2) d =
            fsInsert f (listingOrNil acc.2 d) := by
          calc listingOrNil (moveFile f c d acc.2) d
              = (moveFile f c d acc.2 d).getD [] := listingOrNil_eq_getD _ _
            _ = fsInsert f ((acc.2 d).getD []) := by rw [happ, Option.getD_some]
            _ = fsInsert f (listingOrNil acc.2 d) := by rw [← listingOrNil_eq_getD]
        refine ⟨?_, ?_, ?_⟩
        · intro f' hf'
          exact ihA f' (by
            show f' ∈ listingOrNil (moveFile f c d acc.2) d
            rw [hlist]
            exact (mem_fsInsert f f' _).mpr (Or.inl hf'))
        · intro f' hf'
          rcases ihB f' hf' with hf'' | hf''
          · rw [show listingOrNil (acc.1 + 1, moveFile f c d acc.2).2 d =
                fsInsert f (listingOrNil acc.2 d) from hlist] at hf''
            rcases (mem_fsInsert f f' _).mp hf'' with hmem | heq
            · exact Or.inl hmem
            · subst heq
              exact Or.inr (expected_of_moveDecision imap c f' d hmd)
          · exact Or.inr hf''
        · intro hnd
          exact ihC (by
            show (listingOrNil (moveFile f c d acc.2) d).Nodup
            rw [hlist]
            exact nodup_fsInsert f _ hnd)
      · have happ : moveFile f c tgt acc.2 d = acc.2 d := by
          simp only [moveFile]
          rw [if_neg hd, if_neg hdt]
        have hlist : listingOrNil (moveFile f c tgt acc.2) d =
            listingOrNil acc.2 d := by
          calc listingOrNil (moveFile f c tgt acc.2) d
              = (moveFile f c tgt acc.2 d).getD [] := listingOrNil_eq_getD _ _
            _ = (acc.2 d).getD [] := by rw [happ]
            _ = listingOrNil acc.2 d := (listingOrNil_eq_getD _ _).symm
        refine ⟨?_, ?_, ?_⟩
        · intro f' hf'
          exact ihA f' (by
            show f' ∈ listingOrNil (moveFile f c tgt acc.2) d
            rw [hlist]
            exact hf')
        · intro f' hf'
          rcases ihB f' hf' with hf'' | hf''
          · rw [show listingOrNil (acc.1 + 1, moveFile f c tgt acc.2).2 d =
                listingOrNil acc.2 d from hlist] at hf''
            exact Or.inl hf''
          · exact Or.inr hf''
        · intro hnd
          exact ihC (by
            show (listingOrNil (moveFile f c tgt acc.2) d).Nodup
            rw [hlist]
            exact hnd)

/-- The non-dry scan reports, for each directory, exactly the number of
moves the pristine filesystem calls for: files moved into a directory before
it is scanned already sit in their expected category and are never counted
again. -/
theorem foldl_reorgDir_wet_count (imap : List (Nat × Issue)) (fs₀ : CatFS)
    (hnd₀ : ∀ c, (listingOrNil fs₀ c).Nodup) :
    ∀ ds : List Category, ds.Nodup →
    ∀ (n : Nat) (fs : CatFS),
      (∀ c ∈ ds, (listingOrNil fs c).Nodup) →
      (∀ c ∈ ds, ∀ f ∈ listingOrNil fs₀ c, f ∈ listingOrNil fs c) →
      (∀ c ∈ ds, ∀ f ∈ listingOrNil fs c,
        f ∈ listingOrNil fs₀ c ∨ expectedCat imap f = some c) →
      (ds.foldl (reorgDir imap false) (n, fs)).1 = n + sumCounts imap fs₀ ds := by
  intro ds
  induction ds with
  | nil =>
    intro _ n fs _ _ _
    simp [sumCounts]
  | cons c t ih =>
    intro hds n fs h1 h2 h3
    have hct : c ∉ t := (List.nodup_cons.mp hds).1
    have hdst : t.Nodup := (List.nodup_cons.mp hds).2
    rw [List.foldl_cons]
    cases hc : fs c with
    | none =>
      have hdir : reorgDir imap false (n, fs) c = (n, fs) := by
        unfold reorgDir
        simp [hc]
      have hl0 : listingOrNil fs₀ c = [] := by
        have hsub := h2 c (by simp)
        rw [show listingOrNil fs c = [] from by unfold listingOrNil; rw [hc]] at hsub
        cases hl : listingOrNil fs₀ c with
        | nil => rfl
        | cons x xs => exact absurd (hsub x (by rw [hl]; simp)) (by simp)
      rw [hdir, ih hdst n fs (fun d hd => h1 d (by simp [hd]))
        (fun d hd => h2 d (by simp [hd])) (fun d hd => h3 d (by simp [hd])),
        sumCounts_cons, hl0]
      simp [dirCount]
    | some l =>
      have hlc : listingOrNil fs c = l := by
        unfold listingOrNil
        rw [hc]
      have hdir : reorgDir imap false (n, fs) c =
          (((l.filter (fun f => endsWithStr ".md" f)).foldl
              (reorgStep imap false c) (n, fs)).1,
            cleanupEmptyDirectory c
              ((l.filter (fun f => endsWithStr ".md" f)).foldl
                (reorgStep imap false c) (n, fs)).2) := by
        unfold reorgDir
        simp [hc]
      have hndl : l.Nodup := by
        have := h1 c (by simp)
        rwa [hlc] at this
      have hcnt : ((l.filter (fun f => endsWithStr ".md" f)).foldl
          (reorgStep imap false c) (n, fs)).1 =
          n + dirCount imap c (listingOrNil fs₀ c) := by
        rw [foldl_reorgStep_count, List.filter_filter]
        have hcomm : ∀ g ∈ l,
            ((moveDecision imap c g).isSome && endsWithStr ".md" g) =
            (endsWithStr ".md" g && (moveDecision imap c g).isSome) :=
          fun g _ => Bool.and_comm _ _
        rw [List.filter_congr hcomm]
        show (n, fs).1 + _ = _
        unfold dirCount
        have hperm : (l.filter
            (fun g => endsWithStr ".md" g && (moveDecision imap c g).isSome)).Perm
            ((listingOrNil fs₀ c).filter
              (fun g => endsWithStr ".md" g && (moveDecision imap c g).isSome)) := by
          apply (List.perm_ext_iff_of_nodup (hndl.filter _) ((hnd₀ c).filter _)).mpr
          intro g
          simp only [List.mem_filter]
          constructor
          · rintro ⟨hgl, hP⟩
            rcases h3 c (by simp) g (by rw [hlc]; exact hgl) with hg0 | hgex
            · exact ⟨hg0, hP⟩
            · exfalso
              have hnone := moveDecision_none_of_expected_self imap c g hgex
              rw [hnone] at hP
              simp at hP
          · rintro ⟨hg0, hP⟩
            refine ⟨?_, hP⟩
            have := h2 c (by simp) g hg0
            rwa [hlc] at this
        rw [hperm.length_eq]
      have hother := foldl_reorgStep_wet_other imap c
        (l.filter (fun f => endsWithStr ".md" f)) (n, fs)
      have h1' : ∀ d ∈ t, (listingOrNil
          (cleanupEmptyDirectory c
            ((l.filter (fun f => endsWithStr ".md" f)).foldl
              (reorgStep imap false c) (n, fs)).2) d).Nodup := by
        intro d hd
        have hdc : d ≠ c := fun hx => hct (hx ▸ hd)
        rw [listingOrNil_cleanup_other c d _ hdc]
        exact (hother d hdc).2.2 (h1 d (by simp [hd]))
      have h2' : ∀ d ∈ t, ∀ f ∈ listingOrNil fs₀ d, f ∈ listingOrNil
          (cleanupEmptyDirectory c
            ((l.filter (fun f => endsWithStr ".md" f)).foldl
              (reorgStep imap false c) (n, fs)).2) d := by
        intro d hd f hf
        have hdc : d ≠ c := fun hx => hct (hx ▸ hd)
        rw [listingOrNil_cleanup_other c d _ hdc]
        exact (hother d hdc).1 f (h2 d (by simp [hd]) f hf)
      have h3' : ∀ d ∈ t, ∀ f ∈ listingOrNil
          (cleanupEmptyDirectory c
            ((l.filter (fun f => endsWithStr ".md" f)).foldl
              (reorgStep imap false c) (n, fs)).2) d,
          f ∈ listingOrNil fs₀ d ∨ expectedCat imap f = some d := by
        intro d hd f hf
        have hdc : d ≠ c := fun hx => hct (hx ▸ hd)
        rw [listingOrNil_cleanup_other c d _ hdc] at hf
        rcases (hother d hdc).2.1 f hf with hf' | hf'
        · exact h3 d (by simp [hd]) f hf'
        · exact Or.inr hf'
      rw [hdir, ih hdst _ _ h1' h2' h3', hcnt, sumCounts_cons]
      omega

/-- C8: for every item list, `group_by_state` setting, and filesystem state
(whose directory listings hold no duplicate names, as real directories do),
the dry-run reorganization leaves every category directory exactly as it
was, and reports exactly the move count that the non-dry run would
perform. -/
theorem reorganize_dry_run_spec (groupByState : Bool) (issues : List Issue)
    (fs : CatFS) (hnd : ∀ c, (listingOrNil fs c).Nodup) :
    (∀ c, (reorganizeFilesByState groupByState issues true fs).2 c = fs c) ∧
    (reorganizeFilesByState groupByState issues true fs).1 =
      (reorganizeFilesByState groupByState issues false fs).1 := by
  cases groupByState with
  | false => exact ⟨fun c => rfl, rfl⟩
  | true =>
    unfold reorganizeFilesByState
    simp only [Bool.true_eq_false, if_neg, if_false]
    constructor
    · intro c
      rw [show (stateDirectories.foldl (reorgDir (buildIssueMap issues) true)
          (0, fs)).2 = fs from foldl_reorgDir_dry_fs _ _ _]
    · rw [foldl_reorgDir_dry_count, foldl_reorgDir_wet_count
        (buildIssueMap issues) fs hnd stateDirectories (by decide) 0 fs
        (fun c _ => hnd c) (fun c _ f hf => hf) (fun c _ f hf => Or.inl hf)]

/-- Witness for C8: the dry run at a concrete filesystem (one misplaced
artifact of closed issue 1 under `active/`, a non-markdown file, an empty
`done/` directory) changes nothing and counts the same single move the
non-dry run performs. -/
theorem reorganize_dry_run_spec_witness :
    (∀ c, (listingOrNil sampleFS c).Nodup) ∧
    ((∀ c, (reorganizeFilesByState true sampleIssues true sampleFS).2 c = sampleFS c) ∧
    (reorganizeFilesByState true sampleIssues true sampleFS).1 =
      (reorganizeFilesByState true sampleIssues false sampleFS).1) :=
  ⟨by decide, reorganize_dry_run_spec true sampleIssues sampleFS (by decide)⟩

end IssuesSync
